import Mathlib

/-!
Verification of the webshare download service (src/volumes/webshare/app.py and
src/volumes/webshare/webshare_api.py) against its natural-language specification.

The embedding models:
* the XML responses as association lists of (tag, optional text) pairs, mirroring
  `xml.etree.ElementTree`'s `find` (first matching child; `.text` is `None` for an
  empty element, modelled as `Option String`);
* `WebshareAPI` session state (`logged_in`, `token`) and the state transitions of
  `login`, `search` and `initiate_download`, including the exact exception-message
  wrapping of the Python code;
* the credential-hashing pipeline `hash_password` over abstract hash primitives
  (md5-crypt, hex SHA-1, hex MD5 are fixed external algorithms; the claims are about
  how the code composes them, so they are taken as parameters);
* IEEE-754 binary64 arithmetic for the progress computation
  `int((downloaded_size / total_size) * 80)` (exact round-to-nearest-even over ℚ);
* the background worker `download_file_background` as the sequence of versions of its
  job record, and the orchestration layer (`download` route, worker threads, the
  30-second cleanup timer) as a small-step event system.
-/

namespace Webshare

/-! ## XML response model

An `ET.Element` root as consumed by the code: `root.find tag` returns the first child
with that tag, and `elem.text` is `None` (here `none`) when the element is empty.
So `find` returns `Option (Option String)`: `none` = element absent,
`some none` = element present with no text. -/

structure XmlDoc where
  children : List (String × Option String)
deriving DecidableEq, Repr

def XmlDoc.find (doc : XmlDoc) (tag : String) : Option (Option String) :=
  (doc.children.find? (fun c => c.1 == tag)).map (fun c => c.2)

/-- `status = status_elem.text if status_elem is not None else 'UNKNOWN'` followed by
`status == 'OK'`: true exactly when a `status` element is present with text `"OK"`. -/
def XmlDoc.statusOK (doc : XmlDoc) : Bool :=
  doc.find "status" == some (some "OK")

/-- `message = message_elem.text if message_elem is not None else d`; a present
element with no text is Python `None`, which the f-string renders as `"None"`. -/
def XmlDoc.textOr (doc : XmlDoc) (tag d : String) : String :=
  match doc.find tag with
  | none => d
  | some none => "None"
  | some (some s) => s

/-! ## WebshareAPI session state -/

structure ApiState where
  logged_in : Bool
  token : Option String
deriving DecidableEq, Repr

/-- `__init__`: `self.logged_in = False`, `self.token = None`. -/
def initApi : ApiState := ⟨false, none⟩

/-- Python truthiness of `self.token`: `None` and `''` are falsy. -/
def tokenTruthy : Option String → Bool
  | none => false
  | some s => !s.isEmpty

/-- The guard `if not self.logged_in or not self.token` shared by `search` and
`initiate_download`. -/
def ApiState.authOK (st : ApiState) : Bool :=
  st.logged_in && tokenTruthy st.token

/-- A remote interaction as seen by one API method: the transport/parse layer either
fails (`requests` exception / `ET.ParseError`) or delivers a well-formed document. -/
inductive RInput where
  | netFail (msg : String)
  | parseFail
  | resp (doc : XmlDoc)
deriving DecidableEq, Repr

/-- `login`'s remote interaction: the `/salt/` step may fail on its own
(`get_salt` wraps its errors as `Failed to get salt: ...`), otherwise the `/login/`
response decides the outcome. -/
inductive LoginInput where
  | saltFail (msg : String)
  | netFail (msg : String)
  | parseFail
  | resp (doc : XmlDoc)
deriving DecidableEq, Repr

/-- `WebshareAPI.login`, lines 22-86: returns the state after the call paired with
the outcome (`.ok` = the `{'success': True}` return, `.error` = the message of the
exception that propagates).  On every failure path the method raises without
touching `self.token` / `self.logged_in`, so the state is returned unchanged.
On `status == 'OK'` with a `token` element present it stores `token_elem.text`
(which may be Python `None`) and sets `logged_in = True`. -/
def login (st : ApiState) (inp : LoginInput) : ApiState × Except String Unit :=
  match inp with
  | .saltFail m => (st, .error ("Login failed: Failed to get salt: " ++ m))
  | .netFail m => (st, .error ("Login failed: Network error - " ++ m))
  | .parseFail => (st, .error "Login failed: Login failed: Invalid server response")
  | .resp doc =>
    if doc.statusOK then
      match doc.find "token" with
      | some txt => ({ logged_in := true, token := txt }, .ok ())
      | none => (st, .error "Login failed: Login failed: Login successful but no token received")
    else
      (st, .error ("Login failed: Login failed: Login failed: "
        ++ doc.textOr "message" "No message" ++ " (code: " ++ doc.textOr "code" "No code" ++ ")"))

/-- The message with which `search` rejects an unauthenticated call: the guard's
`Exception('Not logged in. Please login first.')` wrapped once by the generic
`except` into `f'Search failed: {str(e)}'`. -/
def notAuthMsgSearch : String := "Search failed: Not logged in. Please login first."

/-- Likewise for `initiate_download`. -/
def notAuthMsgDownload : String := "Download failed: Not logged in. Please login first."

/-- `WebshareAPI.search`, lines 132-172.  The state is never mutated; only the
outcome matters to the claims, so a successful parse is summarised as `.ok ()`
(`_parse_search_results_xml` never raises: every numeric extraction catches
`ValueError`/`TypeError` and defaults). -/
def search (st : ApiState) (inp : RInput) : Except String Unit :=
  if !st.authOK then .error notAuthMsgSearch
  else
    match inp with
    | .netFail m => .error ("Search failed: Network error - " ++ m)
    | .parseFail => .error "Search failed: Search failed: Invalid server response"
    | .resp doc =>
      if doc.statusOK then .ok ()
      else .error ("Search failed: Search failed: " ++ doc.textOr "message" "Unknown error")

/-- Result of `initiate_download` on success. -/
structure DlResult where
  downloadUrl : Option String
  fileName : Option String
  fileSize : Nat
deriving DecidableEq, Repr

/-- Decimal value of an ASCII digit string, `int(s)` for `s.isdigit()` inputs. -/
def digitsToNat (l : List Char) : Nat :=
  l.foldl (fun n c => n * 10 + (c.toNat - 48)) 0

/-- `size_text.isdigit()` followed by `int(size_text)`, guarded by
`if size_text and ...` and a `try/except (ValueError, AttributeError)` that
defaults to 0.  Digits are modelled as ASCII `0-9` (the remote protocol sends
decimal byte counts); for such strings `int` never raises. -/
def pySizeParse (sizeText : Option String) : Nat :=
  match sizeText with
  | none => 0
  | some s =>
    if !s.data.isEmpty && s.data.all (fun c => c.isDigit) then digitsToNat s.data else 0

/-- `WebshareAPI.initiate_download`, lines 226-279.  State is never mutated.
`size_text = size_elem.text if size_elem is not None else '0'`;
`link`/`name` default to `''`/`'download'` only when the element is absent
(a present element with no text yields Python `None`, kept as `none`). -/
def initiate_download (st : ApiState) (inp : RInput) : Except String DlResult :=
  if !st.authOK then .error notAuthMsgDownload
  else
    match inp with
    | .netFail m => .error ("Download failed: Network error - " ++ m)
    | .parseFail => .error "Download failed: Download failed: Invalid server response"
    | .resp doc =>
      if doc.statusOK then
        .ok { downloadUrl := match doc.find "link" with | none => some "" | some t => t
              fileName := match doc.find "name" with | none => some "download" | some t => t
              fileSize := pySizeParse (match doc.find "size" with | none => some "0" | some t => t) }
      else .error ("Download failed: Download failed: " ++ doc.textOr "message" "Unknown error")

/-! ## Operation sequences over the shared session -/

inductive ApiOp where
  | loginOp (inp : LoginInput)
  | searchOp (inp : RInput)
  | resolveOp (inp : RInput)
deriving DecidableEq, Repr

/-- One client call: `search` and `initiate_download` leave the session unchanged. -/
def apiStep (st : ApiState) (op : ApiOp) : ApiState :=
  match op with
  | .loginOp inp => (login st inp).1
  | .searchOp _ => st
  | .resolveOp _ => st

def apiRun (st : ApiState) (ops : List ApiOp) : ApiState :=
  ops.foldl apiStep st

/-- Whether a `login` call succeeds depends only on its input, not on the state. -/
def loginSucceeds : LoginInput → Bool
  | .resp doc => doc.statusOK && (doc.find "token").isSome
  | _ => false

/-- An operation that is not a successful login. -/
def notSuccessfulLogin : ApiOp → Bool
  | .loginOp inp => !loginSucceeds inp
  | _ => true

/-- The session invariant of the spec: token non-empty iff authenticated. -/
def sessionInv (st : ApiState) : Prop :=
  tokenTruthy st.token = st.logged_in

instance (st : ApiState) : Decidable (sessionInv st) := by
  unfold sessionInv; infer_instance

/-! ## CredentialHasher (`WebshareAPI.hash_password`, lines 113-126)

The three cryptographic primitives are fixed external algorithms (passlib's
`md5_crypt.encrypt` with explicit salt, `hashlib.sha1(...).hexdigest()`,
`hashlib.md5(...).hexdigest()`); the claim is about how the code composes them, so
they are parameters.  `sha1Hex`/`md5Hex` consume the UTF-8 bytes of their input,
produced here by `String.toUTF8` exactly as `.encode('utf-8')` does. -/

def hash_password (md5CryptEnc : String → String → String)
    (sha1Hex : ByteArray → String) (md5Hex : ByteArray → String)
    (username password salt : String) : String × String :=
  let md5_hash := md5CryptEnc password salt
  let password_hash := sha1Hex md5_hash.toUTF8
  let digest_string := username ++ ":Webshare:" ++ password_hash
  let digest := md5Hex digest_string.toUTF8
  (password_hash, digest)

/-! ## IEEE-754 binary64 model for the progress computation

`download_file_background` computes `min(90, 10 + int((downloaded_size / total_size) * 80))`
in Python: `/` is binary64 division (correctly rounded), `* 80` is a correctly
rounded binary64 product, `int` truncates toward zero.  `roundDouble` is exact
round-to-nearest-even to 53 significant bits with unbounded exponent range, which
agrees with binary64 for every value in the normal range `[2^-1022, 2^1024)` — all
quotients `d/t` and products `80·(d/t)` of byte counts `1 ≤ d, t < 2^64` lie there. -/

/-- Fuel-based base-2 integer logarithm (structural recursion so that kernel
evaluation works inside `decide`). -/
def natLog2F : Nat → Nat → Nat
  | 0, _ => 0
  | fuel + 1, n => if n ≤ 1 then 0 else natLog2F fuel (n / 2) + 1

def natLog2 (n : Nat) : Nat := natLog2F n n

/-- Round a rational to the nearest integer, ties to even.  (`Rat.floor` is used
rather than `Int.floor` so that closed instances evaluate by kernel reduction;
`ratFloor_eq_intFloor` below bridges to the `⌊·⌋` API.) -/
def roundNearestEvenQ (m : ℚ) : ℤ :=
  if m - m.floor < 1/2 then m.floor
  else if (1:ℚ)/2 < m - m.floor then m.floor + 1
  else if m.floor % 2 = 0 then m.floor else m.floor + 1

/-- `⌊log₂ q⌋` for positive rationals (junk value 0 at nonpositive inputs). -/
def floorLog2 (q : ℚ) : ℤ :=
  if 1 ≤ q then (natLog2 (Int.toNat q.floor) : ℤ)
  else if q * (2:ℚ) ^ natLog2 (Int.toNat (q⁻¹.floor)) = 1 then
    -(natLog2 (Int.toNat (q⁻¹.floor)) : ℤ)
  else -(natLog2 (Int.toNat (q⁻¹.floor)) : ℤ) - 1

/-- Round-to-nearest-even at 53 significant bits: the binary64 result of a real
operation whose exact value is `q` (nonnegative, normal range). -/
def roundDouble (q : ℚ) : ℚ :=
  if q ≤ 0 then 0
  else
    let s : ℚ := (2:ℚ) ^ ((52:ℤ) - floorLog2 q)
    ((roundNearestEvenQ (q * s) : ℚ)) / s

/-- `min(90, 10 + int((downloaded_size / total_size) * 80))` — the Python progress
value, with both floating-point roundings made explicit. -/
def pyProgress (downloaded total : Nat) : Nat :=
  min 90 (10 + Int.toNat (roundDouble (roundDouble ((downloaded : ℚ) / (total : ℚ)) * 80)).floor)

/-- The progress value the specification states: `min(90, 10 + floor(80·d/t))`
with exact rational arithmetic (`Nat` division is the floor). -/
def specProgress (downloaded total : Nat) : Nat :=
  min 90 (10 + 80 * downloaded / total)

/-! ### Properties of the rounding model -/

theorem ratFloor_eq_intFloor (q : ℚ) : q.floor = ⌊q⌋ := by
  rw [Rat.floor_def', Rat.floor_def]

theorem natLog2F_spec (fuel : Nat) : ∀ n, 1 ≤ n → n ≤ fuel →
    2 ^ natLog2F fuel n ≤ n ∧ n < 2 ^ (natLog2F fuel n + 1) := by
  induction fuel with
  | zero => intro n h1 h2; omega
  | succ fuel ih =>
    intro n h1 h2
    unfold natLog2F
    by_cases hsmall : n ≤ 1
    · simp only [hsmall, if_true]
      have : n = 1 := by omega
      subst this; simp
    · simp only [hsmall, if_false]
      have hrec := ih (n / 2) (by omega) (by omega)
      obtain ⟨hlo, hhi⟩ := hrec
      constructor
      · calc 2 ^ (natLog2F fuel (n / 2) + 1) = 2 ^ natLog2F fuel (n / 2) * 2 := by ring
        _ ≤ (n / 2) * 2 := by omega
        _ ≤ n := by omega
      · have : n / 2 + 1 ≤ 2 ^ (natLog2F fuel (n / 2) + 1) := hhi
        calc n < (n / 2) * 2 + 2 := by omega
        _ ≤ 2 ^ (natLog2F fuel (n / 2) + 1) * 2 := by omega
        _ = 2 ^ (natLog2F fuel (n / 2) + 1 + 1) := by ring

theorem natLog2_spec (n : Nat) (h : 1 ≤ n) :
    2 ^ natLog2 n ≤ n ∧ n < 2 ^ (natLog2 n + 1) :=
  natLog2F_spec n n h le_rfl

theorem rne_bounds (m : ℚ) :
    ⌊m⌋ ≤ roundNearestEvenQ m ∧ roundNearestEvenQ m ≤ ⌊m⌋ + 1 := by
  unfold roundNearestEvenQ
  rw [ratFloor_eq_intFloor]
  split_ifs <;> omega

theorem rne_mono {a b : ℚ} (h : a ≤ b) :
    roundNearestEvenQ a ≤ roundNearestEvenQ b := by
  rcases lt_or_eq_of_le (Int.floor_le_floor h) with hf | hf
  · calc roundNearestEvenQ a ≤ ⌊a⌋ + 1 := (rne_bounds a).2
    _ ≤ ⌊b⌋ := by omega
    _ ≤ roundNearestEvenQ b := (rne_bounds b).1
  · unfold roundNearestEvenQ
    rw [ratFloor_eq_intFloor, ratFloor_eq_intFloor, ← hf]
    have hfr : a - ⌊a⌋ ≤ b - ⌊a⌋ := by
      have : ((⌊a⌋ : ℚ)) = ((⌊a⌋ : ℚ)) := rfl
      linarith
    split_ifs <;> first | omega | linarith

theorem zpow_two_pos (e : ℤ) : (0:ℚ) < 2 ^ e := zpow_pos (by norm_num) e

theorem floorLog2_spec {q : ℚ} (hq : 0 < q) :
    (2:ℚ) ^ floorLog2 q ≤ q ∧ q < (2:ℚ) ^ (floorLog2 q + 1) := by
  unfold floorLog2
  split_ifs with h1 h2
  · -- 1 ≤ q
    set n := Int.toNat q.floor with hn
    have hfl : (1:ℤ) ≤ ⌊q⌋ := Int.le_floor.mpr (by exact_mod_cast h1)
    have hnc : (n : ℤ) = ⌊q⌋ := by
      rw [hn, ratFloor_eq_intFloor]; exact Int.toNat_of_nonneg (by omega)
    have hn1 : 1 ≤ n := by omega
    obtain ⟨hlo, hhi⟩ := natLog2_spec n hn1
    constructor
    · rw [zpow_natCast]
      calc ((2:ℚ) ^ natLog2 n) ≤ (n : ℚ) := by exact_mod_cast hlo
      _ = ((⌊q⌋ : ℤ) : ℚ) := by exact_mod_cast congrArg (fun z => ((z : ℤ) : ℚ)) hnc
      _ ≤ q := Int.floor_le q
    · have : ((natLog2 n : ℤ) + 1) = ((natLog2 n + 1 : ℕ) : ℤ) := by push_cast; ring
      rw [this, zpow_natCast]
      calc q < ⌊q⌋ + 1 := Int.lt_floor_add_one q
      _ = ((n : ℤ) : ℚ) + 1 := by rw [hnc]
      _ ≤ ((2:ℚ) ^ (natLog2 n + 1)) := by
          push_cast
          have : (n : ℚ) + 1 ≤ ((2 ^ (natLog2 n + 1) : ℕ) : ℚ) := by exact_mod_cast hhi
          push_cast at this
          linarith
  · -- q < 1, and q = 2^(-e) exactly (branch condition h2)
    set m := Int.toNat (q⁻¹.floor) with hm
    have hqe : q = ((2:ℚ) ^ natLog2 m)⁻¹ := eq_inv_of_mul_eq_one_left h2
    constructor
    · rw [hqe, zpow_neg, zpow_natCast]
    · rw [hqe]
      have hpos : (0:ℚ) < (2:ℚ) ^ natLog2 m := by positivity
      rw [zpow_add₀ (by norm_num : (2:ℚ) ≠ 0), zpow_neg, zpow_natCast, zpow_one]
      have hinv : (0:ℚ) < ((2:ℚ) ^ natLog2 m)⁻¹ := by positivity
      nlinarith
  · -- q < 1 and q strictly between powers
    have hq1 : 1 < q⁻¹ := by
      push_neg at h1
      rw [inv_eq_one_div, lt_div_iff₀ hq]
      simpa using h1
    set m := Int.toNat (q⁻¹.floor) with hm
    have hfl : (1:ℤ) ≤ ⌊q⁻¹⌋ := Int.le_floor.mpr (by exact_mod_cast hq1.le)
    have hmc : (m : ℤ) = ⌊q⁻¹⌋ := by
      rw [hm, ratFloor_eq_intFloor]; exact Int.toNat_of_nonneg (by omega)
    have hm1 : 1 ≤ m := by omega
    obtain ⟨hlo, hhi⟩ := natLog2_spec m hm1
    have hlo' : (2:ℚ) ^ natLog2 m ≤ q⁻¹ := by
      calc ((2:ℚ) ^ natLog2 m) ≤ (m : ℚ) := by exact_mod_cast hlo
      _ = ((⌊q⁻¹⌋ : ℤ) : ℚ) := by exact_mod_cast congrArg (fun z => ((z : ℤ) : ℚ)) hmc
      _ ≤ q⁻¹ := Int.floor_le _
    have hhi' : q⁻¹ < (2:ℚ) ^ (natLog2 m + 1) := by
      calc q⁻¹ < ⌊q⁻¹⌋ + 1 := Int.lt_floor_add_one _
      _ = ((m : ℤ) : ℚ) + 1 := by rw [hmc]
      _ ≤ ((2:ℚ) ^ (natLog2 m + 1)) := by
          push_cast
          have : (m : ℚ) + 1 ≤ ((2 ^ (natLog2 m + 1) : ℕ) : ℚ) := by exact_mod_cast hhi
          push_cast at this
          linarith
    have hne : q * (2:ℚ) ^ natLog2 m ≠ 1 := h2
    have hlt : q * (2:ℚ) ^ natLog2 m < 1 := by
      have h' : q * (2:ℚ) ^ natLog2 m ≤ q * q⁻¹ :=
        mul_le_mul_of_nonneg_left hlo' hq.le
      rw [mul_inv_cancel₀ hq.ne'] at h'
      exact lt_of_le_of_ne h' hne
    have hgt : 1 < q * (2:ℚ) ^ (natLog2 m + 1) := by
      have h' : q * q⁻¹ < q * (2:ℚ) ^ (natLog2 m + 1) :=
        mul_lt_mul_of_pos_left hhi' hq
      rwa [mul_inv_cancel₀ hq.ne'] at h'
    have hz1 : (2:ℚ) ^ (-(natLog2 m : ℤ) - 1) = ((2:ℚ) ^ (natLog2 m + 1))⁻¹ := by
      rw [show -(natLog2 m : ℤ) - 1 = -((natLog2 m + 1 : ℕ) : ℤ) by push_cast; ring,
        zpow_neg, zpow_natCast]
    have hz2 : (2:ℚ) ^ (-(natLog2 m : ℤ) - 1 + 1) = ((2:ℚ) ^ natLog2 m)⁻¹ := by
      rw [show -(natLog2 m : ℤ) - 1 + 1 = -((natLog2 m : ℕ) : ℤ) by ring,
        zpow_neg, zpow_natCast]
    have hp1 : (0:ℚ) < (2:ℚ) ^ (natLog2 m + 1) := by positivity
    have hp2 : (0:ℚ) < (2:ℚ) ^ natLog2 m := by positivity
    constructor
    · rw [hz1, inv_eq_one_div, div_le_iff₀ hp1]
      linarith
    · rw [hz2, inv_eq_one_div, lt_div_iff₀ hp2]
      linarith

theorem floorLog2_mono {a b : ℚ} (ha : 0 < a) (hab : a ≤ b) :
    floorLog2 a ≤ floorLog2 b := by
  have hb : 0 < b := lt_of_lt_of_le ha hab
  obtain ⟨ha1, _⟩ := floorLog2_spec ha
  obtain ⟨_, hb2⟩ := floorLog2_spec hb
  have : (2:ℚ) ^ floorLog2 a < (2:ℚ) ^ (floorLog2 b + 1) :=
    lt_of_le_of_lt (le_trans ha1 hab) hb2
  have := (zpow_lt_zpow_iff_right₀ (by norm_num : (1:ℚ) < 2)).mp this
  omega

theorem roundDouble_of_nonpos {q : ℚ} (h : q ≤ 0) : roundDouble q = 0 := by
  unfold roundDouble
  rw [if_pos h]

theorem roundDouble_pos_eq {q : ℚ} (h : 0 < q) :
    roundDouble q = (roundNearestEvenQ (q * (2:ℚ) ^ ((52:ℤ) - floorLog2 q)) : ℚ)
      / (2:ℚ) ^ ((52:ℤ) - floorLog2 q) := by
  unfold roundDouble
  rw [if_neg (not_le.mpr h)]

theorem mantissa_bounds {q : ℚ} (h : 0 < q) :
    (2:ℚ) ^ (52:ℤ) ≤ q * (2:ℚ) ^ ((52:ℤ) - floorLog2 q) ∧
    q * (2:ℚ) ^ ((52:ℤ) - floorLog2 q) < (2:ℚ) ^ (53:ℤ) := by
  obtain ⟨hlo, hhi⟩ := floorLog2_spec h
  have hs : (0:ℚ) < (2:ℚ) ^ ((52:ℤ) - floorLog2 q) := zpow_two_pos _
  have hmul : (2:ℚ) ^ floorLog2 q * (2:ℚ) ^ ((52:ℤ) - floorLog2 q) = (2:ℚ) ^ (52:ℤ) := by
    rw [← zpow_add₀ (by norm_num : (2:ℚ) ≠ 0)]
    ring_nf
  have hmul' : (2:ℚ) ^ (floorLog2 q + 1) * (2:ℚ) ^ ((52:ℤ) - floorLog2 q) = (2:ℚ) ^ (53:ℤ) := by
    rw [← zpow_add₀ (by norm_num : (2:ℚ) ≠ 0)]
    ring_nf
  constructor
  · calc (2:ℚ) ^ (52:ℤ) = (2:ℚ) ^ floorLog2 q * (2:ℚ) ^ ((52:ℤ) - floorLog2 q) := hmul.symm
    _ ≤ q * (2:ℚ) ^ ((52:ℤ) - floorLog2 q) := mul_le_mul_of_nonneg_right hlo hs.le
  · calc q * (2:ℚ) ^ ((52:ℤ) - floorLog2 q)
        < (2:ℚ) ^ (floorLog2 q + 1) * (2:ℚ) ^ ((52:ℤ) - floorLog2 q) :=
          mul_lt_mul_of_pos_right hhi hs
    _ = (2:ℚ) ^ (53:ℤ) := hmul'

theorem roundDouble_nonneg (q : ℚ) : 0 ≤ roundDouble q := by
  rcases le_or_lt q 0 with h | h
  · rw [roundDouble_of_nonpos h]
  · rw [roundDouble_pos_eq h]
    have hs : (0:ℚ) < (2:ℚ) ^ ((52:ℤ) - floorLog2 q) := zpow_two_pos _
    have hm : (0:ℚ) ≤ q * (2:ℚ) ^ ((52:ℤ) - floorLog2 q) := by positivity
    have h0 : (0:ℤ) ≤ ⌊q * (2:ℚ) ^ ((52:ℤ) - floorLog2 q)⌋ := Int.floor_nonneg.mpr hm
    have h1 := (rne_bounds (q * (2:ℚ) ^ ((52:ℤ) - floorLog2 q))).1
    apply div_nonneg _ hs.le
    exact_mod_cast le_trans h0 h1

theorem roundDouble_le_pow {q : ℚ} (h : 0 < q) :
    roundDouble q ≤ (2:ℚ) ^ (floorLog2 q + 1) := by
  obtain ⟨_, hhi⟩ := mantissa_bounds h
  have hs : (0:ℚ) < (2:ℚ) ^ ((52:ℤ) - floorLog2 q) := zpow_two_pos _
  have hk : roundNearestEvenQ (q * (2:ℚ) ^ ((52:ℤ) - floorLog2 q)) ≤ 2 ^ 53 := by
    have hfl : ⌊q * (2:ℚ) ^ ((52:ℤ) - floorLog2 q)⌋ < 2 ^ 53 := by
      apply Int.floor_lt.mpr
      calc q * (2:ℚ) ^ ((52:ℤ) - floorLog2 q) < (2:ℚ) ^ (53:ℤ) := hhi
      _ = (((2:ℤ) ^ (53:ℕ) : ℤ) : ℚ) := by norm_num
    have := (rne_bounds (q * (2:ℚ) ^ ((52:ℤ) - floorLog2 q))).2
    omega
  rw [roundDouble_pos_eq h, div_le_iff₀ hs]
  calc (roundNearestEvenQ (q * (2:ℚ) ^ ((52:ℤ) - floorLog2 q)) : ℚ)
      ≤ ((2:ℚ) ^ (53:ℤ)) := by
        calc (roundNearestEvenQ (q * (2:ℚ) ^ ((52:ℤ) - floorLog2 q)) : ℚ)
            ≤ (((2:ℤ) ^ (53:ℕ) : ℤ) : ℚ) := by exact_mod_cast hk
        _ = ((2:ℚ) ^ (53:ℤ)) := by norm_num
  _ = (2:ℚ) ^ (floorLog2 q + 1) * (2:ℚ) ^ ((52:ℤ) - floorLog2 q) := by
        rw [← zpow_add₀ (by norm_num : (2:ℚ) ≠ 0)]
        ring_nf

theorem roundDouble_ge_pow {q : ℚ} (h : 0 < q) :
    (2:ℚ) ^ floorLog2 q ≤ roundDouble q := by
  obtain ⟨hlo, _⟩ := mantissa_bounds h
  have hs : (0:ℚ) < (2:ℚ) ^ ((52:ℤ) - floorLog2 q) := zpow_two_pos _
  have hk : (2:ℤ) ^ (52:ℕ) ≤ roundNearestEvenQ (q * (2:ℚ) ^ ((52:ℤ) - floorLog2 q)) := by
    have hfl : (2:ℤ) ^ (52:ℕ) ≤ ⌊q * (2:ℚ) ^ ((52:ℤ) - floorLog2 q)⌋ := by
      apply Int.le_floor.mpr
      calc (((2:ℤ) ^ (52:ℕ) : ℤ) : ℚ) = (2:ℚ) ^ (52:ℤ) := by norm_num
      _ ≤ q * (2:ℚ) ^ ((52:ℤ) - floorLog2 q) := hlo
    have := (rne_bounds (q * (2:ℚ) ^ ((52:ℤ) - floorLog2 q))).1
    omega
  rw [roundDouble_pos_eq h, le_div_iff₀ hs]
  calc (2:ℚ) ^ floorLog2 q * (2:ℚ) ^ ((52:ℤ) - floorLog2 q) = (2:ℚ) ^ (52:ℤ) := by
        rw [← zpow_add₀ (by norm_num : (2:ℚ) ≠ 0)]
        ring_nf
  _ ≤ (roundNearestEvenQ (q * (2:ℚ) ^ ((52:ℤ) - floorLog2 q)) : ℚ) := by
        calc ((2:ℚ) ^ (52:ℤ)) = (((2:ℤ) ^ (52:ℕ) : ℤ) : ℚ) := by norm_num
        _ ≤ _ := by exact_mod_cast hk

theorem roundDouble_mono {a b : ℚ} (hab : a ≤ b) : roundDouble a ≤ roundDouble b := by
  rcases le_or_lt a 0 with ha | ha
  · rw [roundDouble_of_nonpos ha]
    exact roundDouble_nonneg b
  · have hb : 0 < b := lt_of_lt_of_le ha hab
    rcases lt_or_eq_of_le (floorLog2_mono ha hab) with he | he
    · calc roundDouble a ≤ (2:ℚ) ^ (floorLog2 a + 1) := roundDouble_le_pow ha
      _ ≤ (2:ℚ) ^ floorLog2 b := zpow_le_zpow_right₀ (by norm_num) (by omega)
      _ ≤ roundDouble b := roundDouble_ge_pow hb
    · rw [roundDouble_pos_eq ha, roundDouble_pos_eq hb, he]
      have hs : (0:ℚ) < (2:ℚ) ^ ((52:ℤ) - floorLog2 b) := zpow_two_pos _
      apply div_le_div_of_nonneg_right _ hs.le
      have hmm : a * (2:ℚ) ^ ((52:ℤ) - floorLog2 b) ≤ b * (2:ℚ) ^ ((52:ℤ) - floorLog2 b) :=
        mul_le_mul_of_nonneg_right hab hs.le
      exact_mod_cast rne_mono hmm

/-- The Python progress value is always between 10 and 90. -/
theorem pyProgress_bounds (d t : Nat) : 10 ≤ pyProgress d t ∧ pyProgress d t ≤ 90 := by
  unfold pyProgress
  omega

/-- The Python progress value is monotone in the downloaded byte count. -/
theorem pyProgress_mono {d d' : Nat} (t : Nat) (h : d ≤ d') :
    pyProgress d t ≤ pyProgress d' t := by
  unfold pyProgress
  have hdiv : ((d : ℚ) / (t : ℚ)) ≤ ((d' : ℚ) / (t : ℚ)) := by
    rcases Nat.eq_zero_or_pos t with ht | ht
    · subst ht; norm_num
    · have : (0:ℚ) < (t : ℚ) := by exact_mod_cast ht
      apply div_le_div_of_nonneg_right _ this.le
      exact_mod_cast h
  have h1 : roundDouble ((d : ℚ) / (t : ℚ)) ≤ roundDouble ((d' : ℚ) / (t : ℚ)) :=
    roundDouble_mono hdiv
  have h2 : roundDouble (roundDouble ((d : ℚ) / (t : ℚ)) * 80)
      ≤ roundDouble (roundDouble ((d' : ℚ) / (t : ℚ)) * 80) :=
    roundDouble_mono (mul_le_mul_of_nonneg_right h1 (by norm_num))
  have h3 := Int.floor_le_floor h2
  rw [ratFloor_eq_intFloor, ratFloor_eq_intFloor]
  omega

/-! ## The download job record and the background worker

`download_file_background` (app.py lines 97-185) mutates one entry of
`active_downloads`.  A `Job` models that dict; `none` in an `Option` field means
the key is absent.  The worker is modelled as the list of successive values the
record takes, one entry per Python statement that mutates it. -/

structure Job where
  status : String
  fileName : Option String
  progress : Nat
  message : String
  startTime : Option Nat
  totalSize : Option Nat
  downloadedSize : Option Nat
  filePath : Option String
  finalSize : Option Nat
  error : Option String
deriving DecidableEq, Repr

/-- The dict created at lines 101-107. -/
def initialJob (file_name : Option String) (t0 : Nat) : Job :=
  { status := "downloading", fileName := file_name, progress := 0,
    message := "Starting download...", startTime := some t0,
    totalSize := none, downloadedSize := none, filePath := none,
    finalSize := none, error := none }

/-- The dict installed by the `except` handler at lines 179-185 (note: it replaces
the record wholesale, resetting `progress` to 0 and dropping `startTime`). -/
def errJob (file_name : Option String) (e : String) : Job :=
  { status := "error", fileName := file_name, progress := 0,
    message := "Download failed: " ++ e, startTime := none,
    totalSize := none, downloadedSize := none, filePath := none,
    finalSize := none, error := some e }

/-- `os.path.join` for the plain relative-name case that occurs here. -/
def pathJoin (a b : String) : String := a ++ "/" ++ b

/-- The `TypeError` CPython raises from `os.path.join(path, None)` when both the
request and the remote response supply no file name. -/
def joinNoneMsg : String :=
  "join() argument must be str, bytes, or os.PathLike object, not 'NoneType'"

/-- Where (if anywhere) the run fails after `initiate_download` has succeeded:
at `os.makedirs`, at `session.get`/`raise_for_status`/`content-length` parsing, or
during the chunk loop (after the listed chunks have been consumed; an immediate
`open` failure is `streamFail` with no chunks).  `success` = the stream ends. -/
inductive WorkerFate where
  | mkdirsFail (msg : String)
  | connectFail (msg : String)
  | streamFail (msg : String)
  | success
deriving DecidableEq, Repr

/-- `active_downloads[file_id]['progress'] = progress` (line 149). -/
def chunkW1 (cur : Job) (p : Nat) : Job := { cur with progress := p }

/-- `['message'] = f'Downloading... {progress-10}%'` (line 150). -/
def chunkW2 (cur : Job) (p : Nat) : Job :=
  { chunkW1 cur p with message := "Downloading... " ++ toString (p - 10) ++ "%" }

/-- `['downloadedSize'] = downloaded_size` (line 151). -/
def chunkW3 (cur : Job) (p d : Nat) : Job :=
  { chunkW2 cur p with downloadedSize := some d }

/-- The chunk loop, lines 140-151:  `for chunk in response.iter_content(8192):
if chunk: write; downloaded += len(chunk); if total > 0: three record updates`.
Returns the final byte count, the final record value, the record versions appended
during the loop, and (instrumentation) the record value at the end of each
nonempty-chunk iteration. -/
def streamTrace (total : Nat) : Nat → Job → List Nat → Nat × Job × List Job × List Job
  | downloaded, cur, [] => (downloaded, cur, [], [])
  | downloaded, cur, c :: rest =>
    if c = 0 then streamTrace total downloaded cur rest
    else if 0 < total then
      let r := streamTrace total (downloaded + c)
        (chunkW3 cur (pyProgress (downloaded + c) total) (downloaded + c)) rest
      (r.1, r.2.1,
        chunkW1 cur (pyProgress (downloaded + c) total)
          :: chunkW2 cur (pyProgress (downloaded + c) total)
          :: chunkW3 cur (pyProgress (downloaded + c) total) (downloaded + c) :: r.2.2.1,
        chunkW3 cur (pyProgress (downloaded + c) total) (downloaded + c) :: r.2.2.2)
    else streamTrace total (downloaded + c) cur rest

/-- `if not file_name: file_name = download_info['fileName']` (line 114): the
local name after the fallback (Python's falsy covers `None` and `''`). -/
def effName (file_name : Option String) (info : DlResult) : Option String :=
  match file_name with
  | none => info.fileName
  | some s => if s.isEmpty then info.fileName else some s

/-- `['message'] = 'Connecting to server...'` (line 124). -/
def jobV1 (file_name : Option String) (t0 : Nat) : Job :=
  { initialJob file_name t0 with message := "Connecting to server..." }

/-- `['progress'] = 5` (line 125). -/
def jobV2 (file_name : Option String) (t0 : Nat) : Job :=
  { jobV1 file_name t0 with progress := 5 }

/-- `['message'] = 'Downloading... 0%'` (line 136). -/
def jobV3 (file_name : Option String) (t0 : Nat) : Job :=
  { jobV2 file_name t0 with message := "Downloading... 0%" }

/-- `['progress'] = 10` (line 137). -/
def jobV4 (file_name : Option String) (t0 : Nat) : Job :=
  { jobV3 file_name t0 with progress := 10 }

/-- `['totalSize'] = total_size` (line 138). -/
def jobV5 (file_name : Option String) (t0 total : Nat) : Job :=
  { jobV4 file_name t0 with totalSize := some total }

/-- `['status'] = 'completed'` (line 161). -/
def jobC1 (cur : Job) : Job := { cur with status := "completed" }

/-- `['progress'] = 100` (line 162). -/
def jobC2 (cur : Job) : Job := { jobC1 cur with progress := 100 }

/-- `['message'] = 'Download completed!'` (line 163). -/
def jobC3 (cur : Job) : Job := { jobC2 cur with message := "Download completed!" }

/-- `['filePath'] = file_path` (line 164). -/
def jobC4 (cur : Job) (download_path nm : String) : Job :=
  { jobC3 cur with filePath := some (pathJoin download_path nm) }

/-- `['finalSize'] = downloaded_size` (line 165). -/
def jobC5 (cur : Job) (download_path nm : String) (downloaded : Nat) : Job :=
  { jobC4 cur download_path nm with finalSize := some downloaded }

/-- Everything `download_file_background` does after `initiate_download` returned
`info` (lines 112-175): local `file_name` fallback, `os.makedirs`, the two
`Connecting` updates, the connection, the three `Downloading` updates, the chunk
loop, and the completion block (lines 160-165; `os.chmod` failure is caught and
mutates nothing).  Returns the record versions after the initial one, plus the
post-chunk instrumentation list. -/
def workerBody (file_name : Option String) (info : DlResult)
    (contentLength : Option Nat) (chunks : List Nat) (fate : WorkerFate)
    (download_path : String) (t0 : Nat) : List Job × List Job :=
  match effName file_name info with
  | none => ([errJob file_name joinNoneMsg], [])
  | some nm =>
    match fate with
    | .mkdirsFail m => ([errJob (some nm) m], [])
    | .connectFail m =>
      ([jobV1 file_name t0, jobV2 file_name t0, errJob (some nm) m], [])
    | .streamFail m =>
      let r := streamTrace (contentLength.getD info.fileSize) 0
        (jobV5 file_name t0 (contentLength.getD info.fileSize)) chunks
      ([jobV1 file_name t0, jobV2 file_name t0, jobV3 file_name t0, jobV4 file_name t0,
          jobV5 file_name t0 (contentLength.getD info.fileSize)]
        ++ r.2.2.1 ++ [errJob (some nm) m], r.2.2.2)
    | .success =>
      let r := streamTrace (contentLength.getD info.fileSize) 0
        (jobV5 file_name t0 (contentLength.getD info.fileSize)) chunks
      ([jobV1 file_name t0, jobV2 file_name t0, jobV3 file_name t0, jobV4 file_name t0,
          jobV5 file_name t0 (contentLength.getD info.fileSize)]
        ++ r.2.2.1
        ++ [jobC1 r.2.1, jobC2 r.2.1, jobC3 r.2.1, jobC4 r.2.1 download_path nm,
            jobC5 r.2.1 download_path nm r.1], r.2.2.2)

/-- The full worker: the record versions of `active_downloads[file_id]` from its
creation (line 101) to the worker's exit, and the post-chunk instrumentation.
A failing `initiate_download` (line 110) jumps straight to the `except` handler. -/
def download_file_background (file_name : Option String)
    (resolve : Except String DlResult) (contentLength : Option Nat)
    (chunks : List Nat) (fate : WorkerFate) (download_path : String) (t0 : Nat) :
    List Job × List Job :=
  match resolve with
  | .error e => ([initialJob file_name t0, errJob file_name e], [])
  | .ok info =>
    let r := workerBody file_name info contentLength chunks fate download_path t0
    (initialJob file_name t0 :: r.1, r.2)

/-! ### Stream-trace lemmas (for C5 and C6) -/

/-- Running totals of the nonzero chunks, starting from `d`. -/
def nzSums (d : Nat) : List Nat → List Nat
  | [] => []
  | c :: rest => if c = 0 then nzSums d rest else (d + c) :: nzSums (d + c) rest

/-- Each end-of-iteration record carries exactly the Python progress value of its
running byte total. -/
theorem streamTrace_postChunk (total : Nat) (ht : 0 < total) :
    ∀ (chunks : List Nat) (d : Nat) (cur : Job),
      (streamTrace total d cur chunks).2.2.2.map (fun j => (j.progress, j.downloadedSize))
        = (nzSums d chunks).map (fun s => (pyProgress s total, some s)) := by
  intro chunks
  induction chunks with
  | nil => intro d cur; rfl
  | cons c rest ih =>
    intro d cur
    by_cases hc : c = 0
    · unfold streamTrace nzSums
      rw [if_pos hc, if_pos hc]
      exact ih d cur
    · unfold streamTrace nzSums
      rw [if_neg hc, if_neg hc, if_pos ht]
      simp only [List.map_cons]
      rw [ih]
      simp [chunkW1, chunkW2, chunkW3]

theorem streamTrace_total_zero :
    ∀ (chunks : List Nat) (d : Nat) (cur : Job),
      (streamTrace 0 d cur chunks).2.1 = cur
      ∧ (streamTrace 0 d cur chunks).2.2.1 = []
      ∧ (streamTrace 0 d cur chunks).2.2.2 = [] := by
  intro chunks
  induction chunks with
  | nil => intro d cur; exact ⟨rfl, rfl, rfl⟩
  | cons c rest ih =>
    intro d cur
    by_cases hc : c = 0
    · unfold streamTrace
      rw [if_pos hc]
      exact ih d cur
    · unfold streamTrace
      rw [if_neg hc]
      simpa using ih (d + c) cur

theorem pyProgress_zero (t : Nat) : pyProgress 0 t = 10 := by
  unfold pyProgress
  have h0 : ((0 : Nat) : ℚ) / (t : ℚ) = 0 := by
    simp
  rw [h0, roundDouble_of_nonpos le_rfl]
  rw [show ((0:ℚ) * 80) = 0 by ring, roundDouble_of_nonpos le_rfl]
  rfl

/-- The chunk loop only ever increases the recorded progress, keeps it at most
90, keeps the record in its current status, and ends with a record whose
progress is the Python value of the final byte total. -/
theorem streamTrace_props (total : Nat) :
    ∀ (chunks : List Nat) (d : Nat) (cur : Job),
      cur.progress ≤ pyProgress d total →
      List.Chain' (· ≤ ·) ((cur :: (streamTrace total d cur chunks).2.2.1).map Job.progress)
      ∧ (streamTrace total d cur chunks).2.1.progress
          ≤ pyProgress (streamTrace total d cur chunks).1 total
      ∧ d ≤ (streamTrace total d cur chunks).1
      ∧ (∀ j ∈ (streamTrace total d cur chunks).2.2.1,
          j.progress ≤ 90 ∧ j.status = cur.status)
      ∧ (cur :: (streamTrace total d cur chunks).2.2.1).getLast?
          = some (streamTrace total d cur chunks).2.1 := by
  intro chunks
  induction chunks with
  | nil =>
    intro d cur hcur
    refine ⟨List.chain'_singleton _, hcur, le_rfl, ?_, rfl⟩
    intro j hj
    exact absurd hj (List.not_mem_nil j)
  | cons c rest ih =>
    intro d cur hcur
    by_cases hc : c = 0
    · unfold streamTrace
      rw [if_pos hc]
      exact ih d cur hcur
    · rcases Nat.eq_zero_or_pos total with ht0 | ht
      · unfold streamTrace
        rw [if_neg hc, if_neg (by omega)]
        obtain ⟨i1, i2, i3, i4, i5⟩ := ih (d + c) cur
          (le_trans hcur (pyProgress_mono total (by omega)))
        exact ⟨i1, i2, by omega, i4, i5⟩
      unfold streamTrace
      rw [if_neg hc, if_pos ht]
      have hmono : pyProgress d total ≤ pyProgress (d + c) total :=
        pyProgress_mono total (by omega)
      obtain ⟨ch, hfin, hd, hall, hlast⟩ :=
        ih (d + c) (chunkW3 cur (pyProgress (d + c) total) (d + c)) le_rfl
      refine ⟨?g1, hfin, ?g3, ?g4, ?g5⟩
      case g3 =>
        show d ≤ (streamTrace total (d + c)
          (chunkW3 cur (pyProgress (d + c) total) (d + c)) rest).1
        omega
      · simp only [List.map_cons, List.chain'_cons] at ch ⊢
        refine ⟨?_, le_rfl, le_rfl, ch⟩
        show cur.progress ≤ pyProgress (d + c) total
        omega
      · intro j hj
        simp only [List.mem_cons] at hj
        rcases hj with h1 | h1 | h1 | h1
        · subst h1
          exact ⟨(pyProgress_bounds (d + c) total).2, rfl⟩
        · subst h1
          exact ⟨(pyProgress_bounds (d + c) total).2, rfl⟩
        · subst h1
          exact ⟨(pyProgress_bounds (d + c) total).2, rfl⟩
        · exact hall j h1
      · rw [List.getLast?_cons_cons, List.getLast?_cons_cons, List.getLast?_cons_cons]
        exact hlast

/-! ## The orchestration layer

The `download` route (app.py lines 187-219), the worker threads it spawns, the
30-second cleanup timers (lines 169-175) and the progress query (lines 225-238),
as a small-step event system.  `active_downloads` is an association list.  A
spawned thread is a `Worker` with a program counter: `pc = 0` — `start()` has
returned but the thread body has not run yet (the job record does **not** exist
yet); `pc = 1` — the record was installed (lines 101-107); `pc = 2` — the
`initiate_download` call succeeded.  The post-resolve phase is compressed into one
step that installs the worker's final record (its statement-level trace is
`download_file_background` above); `resolveCalls` counts `initiate_download`
invocations.  One `tick` advances time by a second and fires every due timer. -/

def lookupJ (m : List (String × Job)) (k : String) : Option Job :=
  (m.find? (fun p => p.1 == k)).map (fun p => p.2)

def insertJ (m : List (String × Job)) (k : String) (v : Job) : List (String × Job) :=
  match m with
  | [] => [(k, v)]
  | p :: rest => if p.1 == k then (k, v) :: rest else p :: insertJ rest k v

def eraseJ (m : List (String × Job)) (k : String) : List (String × Job) :=
  match m with
  | [] => []
  | p :: rest => if p.1 == k then rest else p :: eraseJ rest k

/-- Everything a worker's environment determines: the request's `fileName`, the
remote response to its `initiate_download` call, and the stream behaviour. -/
structure WEnv where
  fileName : Option String
  dlInput : RInput
  contentLength : Option Nat
  chunks : List Nat
  fate : WorkerFate
deriving DecidableEq, Repr

structure Worker where
  fid : String
  env : WEnv
  pc : Nat
deriving DecidableEq, Repr

structure Orch where
  api : ApiState
  jobs : List (String × Job)
  workers : List Worker
  timers : List (String × Nat)
  now : Nat
  resolveCalls : Nat
  downloadPath : String
deriving DecidableEq, Repr

/-- What the `download` route returns. -/
inductive DlResponse where
  | started (fid : String)
  | alreadyInProgress (status : String) (progress : Nat)
  | missingId
deriving DecidableEq, Repr

inductive Ev where
  | reqDownload (fid : String) (env : WEnv)
  | workStep (i : Nat)
  | tick
deriving DecidableEq, Repr

def isReqFor (fid : String) : Ev → Bool
  | .reqDownload f _ => f == fid
  | _ => false

/-- The final record a successful-resolve worker leaves behind. -/
def workerFinal (file_name : Option String) (info : DlResult)
    (contentLength : Option Nat) (chunks : List Nat) (fate : WorkerFate)
    (download_path : String) (t0 : Nat) : Job :=
  (workerBody file_name info contentLength chunks fate download_path t0).1.getLastD
    (initialJob file_name t0)

/-- Advance worker `w` by one step. -/
def stepWorker (cfg : Orch) (i : Nat) (w : Worker) : Orch :=
  if w.pc = 0 then
    -- lines 101-107: install the fresh record, runs first in the thread body
    { cfg with jobs := insertJ cfg.jobs w.fid (initialJob w.env.fileName cfg.now),
               workers := cfg.workers.set i { w with pc := 1 } }
  else if w.pc = 1 then
    -- line 110: the initiate_download call
    match initiate_download cfg.api w.env.dlInput with
    | .error e =>
      { cfg with jobs := insertJ cfg.jobs w.fid (errJob w.env.fileName e),
                 workers := cfg.workers.eraseIdx i,
                 resolveCalls := cfg.resolveCalls + 1 }
    | .ok _ =>
      { cfg with workers := cfg.workers.set i { w with pc := 2 },
                 resolveCalls := cfg.resolveCalls + 1 }
  else
    -- the rest of the body; a completion (line 175) schedules the cleanup timer
    match initiate_download cfg.api w.env.dlInput with
    | .error _ => { cfg with workers := cfg.workers.eraseIdx i }
    | .ok info =>
      { cfg with jobs := insertJ cfg.jobs w.fid (workerFinal w.env.fileName info
                   w.env.contentLength w.env.chunks w.env.fate cfg.downloadPath cfg.now),
                 workers := cfg.workers.eraseIdx i,
                 timers := if (workerFinal w.env.fileName info w.env.contentLength
                     w.env.chunks w.env.fate cfg.downloadPath cfg.now).status == "completed" then
                     cfg.timers ++ [(w.fid, cfg.now + 30)]
                   else cfg.timers }

theorem stepWorker_pc0 (cfg : Orch) (i : Nat) (w : Worker) (h : w.pc = 0) :
    stepWorker cfg i w
      = { cfg with
            jobs := insertJ cfg.jobs w.fid (initialJob w.env.fileName cfg.now)
            workers := cfg.workers.set i { w with pc := 1 } } := by
  unfold stepWorker
  rw [if_pos h]

theorem stepWorker_pc1_err (cfg : Orch) (i : Nat) (w : Worker) (e : String)
    (h0 : ¬ w.pc = 0) (h1 : w.pc = 1)
    (hres : initiate_download cfg.api w.env.dlInput = .error e) :
    stepWorker cfg i w
      = { cfg with
            jobs := insertJ cfg.jobs w.fid (errJob w.env.fileName e)
            workers := cfg.workers.eraseIdx i
            resolveCalls := cfg.resolveCalls + 1 } := by
  unfold stepWorker
  rw [if_neg h0, if_pos h1, hres]

theorem stepWorker_pc1_ok (cfg : Orch) (i : Nat) (w : Worker) (info : DlResult)
    (h0 : ¬ w.pc = 0) (h1 : w.pc = 1)
    (hres : initiate_download cfg.api w.env.dlInput = .ok info) :
    stepWorker cfg i w
      = { cfg with
            workers := cfg.workers.set i { w with pc := 2 }
            resolveCalls := cfg.resolveCalls + 1 } := by
  unfold stepWorker
  rw [if_neg h0, if_pos h1, hres]

theorem stepWorker_pc2_err (cfg : Orch) (i : Nat) (w : Worker) (e : String)
    (h0 : ¬ w.pc = 0) (h1 : ¬ w.pc = 1)
    (hres : initiate_download cfg.api w.env.dlInput = .error e) :
    stepWorker cfg i w = { cfg with workers := cfg.workers.eraseIdx i } := by
  unfold stepWorker
  rw [if_neg h0, if_neg h1, hres]

theorem stepWorker_pc2_ok (cfg : Orch) (i : Nat) (w : Worker) (info : DlResult)
    (h0 : ¬ w.pc = 0) (h1 : ¬ w.pc = 1)
    (hres : initiate_download cfg.api w.env.dlInput = .ok info) :
    stepWorker cfg i w
      = { cfg with
            jobs := insertJ cfg.jobs w.fid (workerFinal w.env.fileName info
              w.env.contentLength w.env.chunks w.env.fate cfg.downloadPath cfg.now)
            workers := cfg.workers.eraseIdx i
            timers := if (workerFinal w.env.fileName info w.env.contentLength
                w.env.chunks w.env.fate cfg.downloadPath cfg.now).status == "completed" then
                cfg.timers ++ [(w.fid, cfg.now + 30)]
              else cfg.timers } := by
  unfold stepWorker
  rw [if_neg h0, if_neg h1, hres]

def orchStep (cfg : Orch) : Ev → Orch × Option DlResponse
  | .reqDownload fid env =>
    if fid.isEmpty then (cfg, some .missingId)
    else
      match lookupJ cfg.jobs fid with
      | some j => (cfg, some (.alreadyInProgress j.status j.progress))
      | none =>
        ({ cfg with workers := cfg.workers ++ [⟨fid, env, 0⟩] }, some (.started fid))
  | .workStep i =>
    match cfg.workers.get? i with
    | none => (cfg, none)
    | some w => (stepWorker cfg i w, none)
  | .tick =>
    let now' := cfg.now + 1
    let due := cfg.timers.filter (fun t => t.2 ≤ now')
    let rest := cfg.timers.filter (fun t => !(t.2 ≤ now'))
    ({ cfg with now := now',
                jobs := due.foldl (fun js t => eraseJ js t.1) cfg.jobs,
                timers := rest }, none)

def orchRun (cfg : Orch) (evs : List Ev) : Orch :=
  evs.foldl (fun c e => (orchStep c e).1) cfg

/-- The `/api/download/progress/<file_id>` query (lines 225-238): the record if
present, else a 404. -/
def download_progress (cfg : Orch) (fid : String) : Option Job :=
  lookupJ cfg.jobs fid

/-! ## Auxiliary lemmas -/

theorem lookupJ_insert_self (m : List (String × Job)) (k : String) (v : Job) :
    lookupJ (insertJ m k v) k = some v := by
  induction m with
  | nil => simp [insertJ, lookupJ]
  | cons p rest ih =>
    by_cases h : p.1 == k
    · simp [insertJ, h, lookupJ]
    · have h' : (p.1 == k) = false := by simpa using h
      simp only [insertJ, h', Bool.false_eq_true, if_false]
      simp only [lookupJ, List.find?] at ih ⊢
      rw [h']
      exact ih

theorem lookupJ_insert_ne (m : List (String × Job)) (k k' : String) (v : Job)
    (h : k' ≠ k) : lookupJ (insertJ m k v) k' = lookupJ m k' := by
  have hbk : (k == k') = false := by
    simp only [beq_eq_false_iff_ne, ne_eq]
    exact fun hk => h hk.symm
  induction m with
  | nil => simp [insertJ, lookupJ, hbk]
  | cons p rest ih =>
    by_cases hp : p.1 == k
    · have hpk : p.1 = k := by simpa [beq_iff_eq] using hp
      simp only [insertJ, hp, if_true]
      simp only [lookupJ, List.find?, hbk, hpk]
    · simp only [insertJ, hp, Bool.false_eq_true, if_false]
      simp only [lookupJ, List.find?] at ih ⊢
      cases hpk' : (p.1 == k') with
      | true => rfl
      | false => exact ih

def keyCount (m : List (String × Job)) (k : String) : Nat :=
  (m.filter (fun p => p.1 == k)).length

theorem lookupJ_none_of_keyCount_zero (m : List (String × Job)) (k : String)
    (h : keyCount m k = 0) : lookupJ m k = none := by
  induction m with
  | nil => rfl
  | cons p rest ih =>
    by_cases hp : p.1 == k
    · exfalso
      simp [keyCount, List.filter, hp] at h
    · have hp' : (p.1 == k) = false := by simpa using hp
      simp only [keyCount, List.filter, hp'] at h
      simp only [lookupJ, List.find?, hp']
      exact ih h

theorem keyCount_erase_self (m : List (String × Job)) (k : String) :
    keyCount (eraseJ m k) k = keyCount m k - 1 := by
  induction m with
  | nil => rfl
  | cons p rest ih =>
    by_cases hp : p.1 == k
    · simp [eraseJ, hp, keyCount, List.filter]
    · have hp' : (p.1 == k) = false := by simpa using hp
      simp only [eraseJ, hp', Bool.false_eq_true, if_false]
      simp only [keyCount, List.filter, hp'] at ih ⊢
      exact ih

theorem keyCount_erase_other (m : List (String × Job)) (k k' : String) (h : k' ≠ k) :
    keyCount (eraseJ m k') k = keyCount m k := by
  induction m with
  | nil => rfl
  | cons p rest ih =>
    by_cases hp : p.1 == k'
    · have hpk : p.1 = k' := by simpa [beq_iff_eq] using hp
      have hpk2 : (p.1 == k) = false := by
        simp only [beq_eq_false_iff_ne, ne_eq, hpk]
        exact h
      simp only [eraseJ, hp, if_true]
      simp only [keyCount, List.filter, hpk2]
    · have hp' : (p.1 == k') = false := by simpa using hp
      simp only [eraseJ, hp', Bool.false_eq_true, if_false]
      simp only [keyCount, List.filter] at ih ⊢
      cases hpk : (p.1 == k) with
      | true => simpa [hpk] using ih
      | false => simpa [hpk] using ih

theorem keyCount_erase_le (m : List (String × Job)) (k k' : String) :
    keyCount (eraseJ m k') k ≤ keyCount m k := by
  by_cases h : k = k'
  · subst h
    rw [keyCount_erase_self]
    omega
  · rw [keyCount_erase_other m k k' (fun hk => h hk.symm)]

theorem keyCount_insert_ne (m : List (String × Job)) (k k' : String) (v : Job)
    (h : k' ≠ k) : keyCount (insertJ m k' v) k = keyCount m k := by
  have hbk : (k' == k) = false := by simpa [beq_eq_false_iff_ne] using h
  induction m with
  | nil => simp [insertJ, keyCount, List.filter, hbk]
  | cons p rest ih =>
    by_cases hp : p.1 == k'
    · have hpk : p.1 = k' := by simpa [beq_iff_eq] using hp
      simp only [insertJ, hp, if_true]
      simp only [keyCount, List.filter, hbk, hpk]
    · have hp' : (p.1 == k') = false := by simpa using hp
      simp only [insertJ, hp', Bool.false_eq_true, if_false]
      simp only [keyCount, List.filter] at ih ⊢
      cases hpk : (p.1 == k) with
      | true => simpa [hpk] using ih
      | false => simpa [hpk] using ih

theorem keyCount_foldl_erase_le (due : List (String × Nat)) :
    ∀ m : List (String × Job), ∀ fid : String,
      keyCount (due.foldl (fun js t => eraseJ js t.1) m) fid ≤ keyCount m fid := by
  induction due with
  | nil => intro m fid; exact le_rfl
  | cons t rest ih =>
    intro m fid
    simp only [List.foldl]
    exact le_trans (ih _ fid) (keyCount_erase_le m fid t.1)

theorem keyCount_foldl_erase_zero (due : List (String × Nat)) :
    ∀ m : List (String × Job), ∀ fid : String, (∃ t ∈ due, t.1 = fid) →
      keyCount m fid ≤ 1 →
      keyCount (due.foldl (fun js t => eraseJ js t.1) m) fid = 0 := by
  induction due with
  | nil => intro m fid h _; simp at h
  | cons t rest ih =>
    intro m fid h hc
    simp only [List.foldl]
    by_cases ht : t.1 = fid
    · have hz : keyCount (eraseJ m t.1) fid = 0 := by
        rw [ht, keyCount_erase_self]
        omega
      have := keyCount_foldl_erase_le rest (eraseJ m t.1) fid
      omega
    · rcases h with ⟨t', ht', he⟩
      rcases List.mem_cons.mp ht' with h1 | h1
      · exact absurd (h1 ▸ he) ht
      · exact ih _ fid ⟨t', h1, he⟩ (by rw [keyCount_erase_other m fid t.1 ht]; exact hc)

theorem lookupJ_erase_ne (m : List (String × Job)) (k k' : String)
    (h : k' ≠ k) : lookupJ (eraseJ m k) k' = lookupJ m k' := by
  induction m with
  | nil => rfl
  | cons p rest ih =>
    by_cases hp : p.1 == k
    · have hpk : p.1 = k := by simpa [beq_iff_eq] using hp
      have hpk' : (p.1 == k') = false := by
        simp only [beq_eq_false_iff_ne, ne_eq, hpk]
        exact fun hk => h hk.symm
      simp only [eraseJ, hp, if_true]
      simp only [lookupJ, List.find?, hpk']
    · simp only [eraseJ, hp, Bool.false_eq_true, if_false]
      simp only [lookupJ, List.find?] at ih ⊢
      cases hpk' : (p.1 == k') with
      | true => rfl
      | false => exact ih

/-- Two strings with distinct same-length prefixes are distinct whatever follows. -/
theorem lookupJ_foldl_erase (due : List (String × Nat)) :
    ∀ m : List (String × Job), ∀ fid : String, (∀ t ∈ due, t.1 ≠ fid) →
      lookupJ (due.foldl (fun js t => eraseJ js t.1) m) fid = lookupJ m fid := by
  induction due with
  | nil => intro m fid _; rfl
  | cons t rest ih =>
    intro m fid h
    have h1 : t.1 ≠ fid := h t (by simp)
    have h2 : ∀ t' ∈ rest, t'.1 ≠ fid := fun t' ht' => h t' (by simp [ht'])
    simp only [List.foldl]
    rw [ih _ fid h2]
    exact lookupJ_erase_ne m t.1 fid (fun hk => h1 hk.symm)

theorem string_append_ne (a b x y : String)
    (hlen : a.data.length = b.data.length) (hne : a.data ≠ b.data) :
    a ++ x ≠ b ++ y := by
  intro h
  have hd : (a ++ x).data = (b ++ y).data := congrArg String.data h
  simp only [String.data_append] at hd
  exact hne (List.append_inj hd hlen).1

theorem search_netFail_ne_notAuth (m : String) :
    "Search failed: Network error - " ++ m ≠ notAuthMsgSearch := by
  have hsplit : notAuthMsgSearch = "Search failed: Not logged in. P" ++ "lease login first." := by
    decide
  rw [hsplit]
  exact string_append_ne _ _ _ _ (by decide) (by decide)

theorem search_remoteErr_ne_notAuth (m : String) :
    "Search failed: Search failed: " ++ m ≠ notAuthMsgSearch := by
  have hsplit : notAuthMsgSearch = "Search failed: Not logged in. " ++ "Please login first." := by
    decide
  rw [hsplit]
  exact string_append_ne _ _ _ _ (by decide) (by decide)

/-- A failed `login` call leaves the session state untouched (the exception
propagates before any assignment to `self.token` / `self.logged_in`). -/
theorem login_error_state_unchanged (st : ApiState) (inp : LoginInput) (e : String)
    (h : (login st inp).2 = .error e) : (login st inp).1 = st := by
  cases inp with
  | saltFail m => rfl
  | netFail m => rfl
  | parseFail => rfl
  | resp doc =>
    unfold login at h ⊢
    by_cases hok : doc.statusOK
    · simp only [hok, if_true] at h ⊢
      cases hfind : doc.find "token" with
      | none => simp [hfind]
      | some txt => simp [hfind] at h
    · simp [hok]

/-- A successful `login` call marks the session authenticated. -/
theorem login_ok_logged_in (st : ApiState) (inp : LoginInput)
    (h : (login st inp).2 = .ok ()) : (login st inp).1.logged_in = true := by
  cases inp with
  | saltFail m => simp [login] at h
  | netFail m => simp [login] at h
  | parseFail => simp [login] at h
  | resp doc =>
    unfold login at h ⊢
    by_cases hok : doc.statusOK
    · simp only [hok, if_true] at h ⊢
      cases hfind : doc.find "token" with
      | none => simp [hfind] at h
      | some txt => simp [hfind]
    · simp [hok] at h

/-- Non-login operations leave the session state untouched. -/
def isLoginOp : ApiOp → Bool
  | .loginOp _ => true
  | _ => false

theorem apiRun_no_login (ops : List ApiOp) :
    ∀ st, (∀ op ∈ ops, isLoginOp op = false) → apiRun st ops = st := by
  induction ops with
  | nil => intro st _; rfl
  | cons op rest ih =>
    intro st h
    have hop := h op (by simp)
    have hrest : ∀ o ∈ rest, isLoginOp o = false := fun o ho => h o (by simp [ho])
    cases op with
    | loginOp inp => simp [isLoginOp] at hop
    | searchOp inp => exact ih st hrest
    | resolveOp inp => exact ih st hrest

/-- A login whose input does not lead to success leaves any state unchanged. -/
theorem login_no_success_state (st : ApiState) (inp : LoginInput)
    (h : loginSucceeds inp = false) : (login st inp).1 = st := by
  cases inp with
  | saltFail m => rfl
  | netFail m => rfl
  | parseFail => rfl
  | resp doc =>
    unfold loginSucceeds at h
    unfold login
    by_cases hok : doc.statusOK
    · simp only [hok, Bool.true_and] at h
      cases hfind : doc.find "token" with
      | none => simp [hok, hfind]
      | some txt => rw [hfind] at h; simp at h
    · simp [hok]

/-- Running only unsuccessful logins (and searches / link resolutions) never
changes the session state. -/
theorem apiRun_no_success (ops : List ApiOp) :
    ∀ st, (∀ op ∈ ops, notSuccessfulLogin op = true) → apiRun st ops = st := by
  induction ops with
  | nil => intro st _; rfl
  | cons op rest ih =>
    intro st h
    have hop := h op (by simp)
    have hrest : ∀ o ∈ rest, notSuccessfulLogin o = true := fun o ho => h o (by simp [ho])
    cases op with
    | loginOp inp =>
      simp only [notSuccessfulLogin, Bool.not_eq_true'] at hop
      have hst : (login st inp).1 = st := login_no_success_state st inp hop
      show apiRun (apiStep st (.loginOp inp)) rest = st
      simp only [apiStep]
      rw [hst]
      exact ih st hrest
    | searchOp inp => exact ih st hrest
    | resolveOp inp => exact ih st hrest

/-- A login input is benign for the session invariant when, if it succeeds, the
token it stores is a non-empty string. -/
def storesGoodToken : LoginInput → Bool
  | .resp doc =>
    if doc.statusOK then
      match doc.find "token" with
      | some (some s) => !s.isEmpty
      | some none => false
      | none => true
    else true
  | _ => true

def goodOp : ApiOp → Bool
  | .loginOp inp => storesGoodToken inp
  | _ => true

theorem sessionInv_step (st : ApiState) (op : ApiOp) (hinv : sessionInv st)
    (hop : goodOp op = true) : sessionInv (apiStep st op) := by
  cases op with
  | searchOp _ => exact hinv
  | resolveOp _ => exact hinv
  | loginOp inp =>
    simp only [apiStep]
    simp only [goodOp] at hop
    cases inp with
    | saltFail m => exact hinv
    | netFail m => exact hinv
    | parseFail => exact hinv
    | resp doc =>
      simp only [storesGoodToken] at hop
      simp only [login]
      by_cases hok : doc.statusOK
      · rw [if_pos hok] at hop ⊢
        cases hfind : doc.find "token" with
        | none => simpa [hfind] using hinv
        | some txt =>
          rw [hfind] at hop
          cases txt with
          | none => simp at hop
          | some s =>
            simp only [hfind]
            unfold sessionInv tokenTruthy
            simpa using hop
      · rw [if_neg hok]
        exact hinv

theorem sessionInv_run (ops : List ApiOp) :
    ∀ st, sessionInv st → (∀ op ∈ ops, goodOp op = true) → sessionInv (apiRun st ops) := by
  induction ops with
  | nil => intro st hinv _; exact hinv
  | cons op rest ih =>
    intro st hinv h
    exact ih (apiStep st op) (sessionInv_step st op hinv (h op (by simp)))
      (fun o ho => h o (by simp [ho]))

/-! ## Claim theorems -/

/-- C1 (confirmed): `hash_password` is deterministic (it is a function of its
inputs alone) and returns `passwordHash` = hex-SHA-1 of the UTF-8 bytes of the
md5-crypt hash of `password` with `salt`, and `digest` = hex-MD5 of the UTF-8
bytes of `"{username}:Webshare:{passwordHash}"` — for every choice of the three
externally fixed hash primitives and every input triple. -/
theorem hash_password_correct
    (md5CryptEnc : String → String → String)
    (sha1Hex md5Hex : ByteArray → String)
    (username password salt : String) :
    hash_password md5CryptEnc sha1Hex md5Hex username password salt
      = (sha1Hex (md5CryptEnc password salt).toUTF8,
         md5Hex (String.toUTF8 (username ++ ":Webshare:"
           ++ sha1Hex (md5CryptEnc password salt).toUTF8)))
    ∧ (hash_password md5CryptEnc sha1Hex md5Hex username password salt).2
      = md5Hex (String.toUTF8 (username ++ ":Webshare:"
          ++ (hash_password md5CryptEnc sha1Hex md5Hex username password salt).1)) :=
  ⟨rfl, rfl⟩

/-- C4 counterexample: a login response with `status OK` and an empty `<token/>`
element is reported as a success, yet it leaves `logged_in = True` with
`token = None`: the token-nonempty-iff-authenticated invariant is broken, and the
session was not "left unauthenticated with the token cleared". -/
theorem login_empty_token_breaks_invariant :
    (login initApi (.resp ⟨[("status", some "OK"), ("token", none)]⟩)).2 = .ok ()
    ∧ (login initApi (.resp ⟨[("status", some "OK"), ("token", none)]⟩)).1
        = ⟨true, none⟩
    ∧ ¬ sessionInv (login initApi (.resp ⟨[("status", some "OK"), ("token", none)]⟩)).1 := by
  refine ⟨rfl, rfl, ?_⟩
  decide

/-- C4 (amended): the invariant `token` non-empty iff `logged_in` holds after
every sequence of operations from the initial state provided every successful
login stores a non-empty token text; and a failed login leaves the session state
exactly unchanged (it does not actively clear the token — in particular, from any
state that already satisfies the invariant it preserves it). -/
theorem session_invariant_good_logins :
    (∀ ops : List ApiOp, (∀ op ∈ ops, goodOp op = true) →
      sessionInv (apiRun initApi ops))
    ∧ (∀ (st : ApiState) (inp : LoginInput) (e : String),
        (login st inp).2 = .error e → (login st inp).1 = st) := by
  constructor
  · intro ops h
    exact sessionInv_run ops initApi (by decide) h
  · exact login_error_state_unchanged

/-- Witness for `session_invariant_good_logins`. -/
theorem session_invariant_good_logins_witness :
    sessionInv (apiRun initApi
      [.loginOp (.resp ⟨[("status", some "OK"), ("token", some "tok")]⟩),
       .searchOp (.netFail "refused")])
    ∧ (login ⟨true, some "tok"⟩ (.netFail "refused")).1 = ⟨true, some "tok"⟩ :=
  ⟨session_invariant_good_logins.1 _ (by decide),
   session_invariant_good_logins.2 ⟨true, some "tok"⟩ (.netFail "refused")
     ("Login failed: Network error - refused") rfl⟩

/-- C8 counterexample: a login that the code reports as successful (status OK,
`<token/>` element present but empty) leaves `token = None`, and the next
`search` call is rejected with the not-logged-in error — "after a successful
login no call to search is ever rejected for that reason" fails. -/
theorem search_rejected_after_successful_login :
    (login initApi (.resp ⟨[("status", some "OK"), ("token", none)]⟩)).2 = .ok ()
    ∧ search (login initApi (.resp ⟨[("status", some "OK"), ("token", none)]⟩)).1
        (.resp ⟨[("status", some "OK")]⟩) = .error notAuthMsgSearch := by
  exact ⟨rfl, rfl⟩

/-- C8 (amended): every `search` or `initiate_download` call made before any
successful login fails with the not-logged-in error; and after a successful login
that stored a non-empty token, as long as no further login call is made, no
`search` call is ever rejected with that error. -/
theorem search_auth_guard_amended :
    (∀ ops : List ApiOp, (∀ op ∈ ops, notSuccessfulLogin op = true) →
      ∀ inp : RInput,
        search (apiRun initApi ops) inp = .error notAuthMsgSearch
        ∧ initiate_download (apiRun initApi ops) inp = .error notAuthMsgDownload)
    ∧ (∀ (st : ApiState) (linp : LoginInput) (ops : List ApiOp),
        (login st linp).2 = .ok () →
        tokenTruthy (login st linp).1.token = true →
        (∀ op ∈ ops, isLoginOp op = false) →
        ∀ inp : RInput,
          search (apiRun (login st linp).1 ops) inp ≠ .error notAuthMsgSearch) := by
  constructor
  · intro ops h inp
    rw [apiRun_no_success ops initApi h]
    exact ⟨rfl, rfl⟩
  · intro st linp ops hok htok hnologin inp
    rw [apiRun_no_login ops _ hnologin]
    have hlog : (login st linp).1.logged_in = true := login_ok_logged_in st linp hok
    have hauth : (login st linp).1.authOK = true := by
      unfold ApiState.authOK
      rw [hlog, htok]
      rfl
    unfold search
    rw [hauth]
    cases inp with
    | netFail m =>
      simp only [Bool.not_true, Bool.false_eq_true, if_false]
      intro h
      exact search_netFail_ne_notAuth m (by injection h)
    | parseFail =>
      simp only [Bool.not_true, Bool.false_eq_true, if_false]
      intro h
      have : ("Search failed: Search failed: Invalid server response" : String)
          = notAuthMsgSearch := by injection h
      exact absurd this (by decide)
    | resp doc =>
      simp only [Bool.not_true, Bool.false_eq_true, if_false]
      by_cases hok' : doc.statusOK
      · simp [hok']
      · rw [if_neg hok']
        intro h
        exact search_remoteErr_ne_notAuth _ (by injection h)

/-- Witness for `search_auth_guard_amended`. -/
theorem search_auth_guard_amended_witness :
    (search (apiRun initApi [.loginOp (.netFail "down")]) (.resp ⟨[("status", some "OK")]⟩)
        = .error notAuthMsgSearch
      ∧ initiate_download (apiRun initApi [.loginOp (.netFail "down")])
          (.resp ⟨[("status", some "OK")]⟩) = .error notAuthMsgDownload)
    ∧ search (apiRun (login initApi
        (.resp ⟨[("status", some "OK"), ("token", some "tok")]⟩)).1 [])
        (.netFail "down") ≠ .error notAuthMsgSearch :=
  ⟨search_auth_guard_amended.1 [.loginOp (.netFail "down")] (by decide) _,
   search_auth_guard_amended.2 initApi
     (.resp ⟨[("status", some "OK"), ("token", some "tok")]⟩) [] rfl (by decide)
     (by decide) (.netFail "down")⟩

/-- C9 (confirmed): on a well-formed XML response with status `OK`,
`initiate_download` always returns a result and never raises, whatever the other
fields look like: the size is the integer value of the `size` text exactly when
that text is non-empty and all digits (0 otherwise, including a present-but-empty
element), and `downloadUrl`/`fileName` default to `""`/`"download"` when the
elements are missing. -/
theorem initiate_download_ok_total (st : ApiState) (doc : XmlDoc)
    (hauth : st.authOK = true) (hok : doc.statusOK = true) :
    ∃ r : DlResult, initiate_download st (.resp doc) = .ok r
      ∧ (doc.find "link" = none → r.downloadUrl = some "")
      ∧ (doc.find "name" = none → r.fileName = some "download")
      ∧ (∀ s : String, doc.find "size" = some (some s) →
          ((!s.data.isEmpty && s.data.all (fun c => c.isDigit)) = true →
            r.fileSize = digitsToNat s.data)
          ∧ ((!s.data.isEmpty && s.data.all (fun c => c.isDigit)) = false → r.fileSize = 0))
      ∧ (doc.find "size" = some none → r.fileSize = 0)
      ∧ (doc.find "size" = none → r.fileSize = 0) := by
  refine ⟨{ downloadUrl := match doc.find "link" with | none => some "" | some t => t
            fileName := match doc.find "name" with | none => some "download" | some t => t
            fileSize := pySizeParse (match doc.find "size" with | none => some "0" | some t => t) },
    ?_, ?_, ?_, ?_, ?_, ?_⟩
  · simp only [initiate_download, hauth]
    simp only [Bool.not_true, Bool.false_eq_true, if_false]
    rw [if_pos hok]
  · intro h; simp [h]
  · intro h; simp [h]
  · intro s h
    constructor
    · intro hd; simp [h, pySizeParse, hd]
    · intro hd; simp [h, pySizeParse, hd]
  · intro h; simp [h, pySizeParse]
  · intro h
    simp only [h, pySizeParse]
    decide

/-! ### Cleanup-timer invariants (for C7) -/

/-- Any job record with no live worker and no pending timer for its id survives
every event unchanged: nothing but a cleanup timer ever deletes a record, and
nothing spawns a worker for an id that is present in the map. -/
theorem errorPersists_step (cfg : Orch) (e : Ev) (fid : String) (j : Job)
    (hj : lookupJ cfg.jobs fid = some j)
    (hw : ∀ w ∈ cfg.workers, w.fid ≠ fid)
    (ht : ∀ t ∈ cfg.timers, t.1 ≠ fid) :
    lookupJ (orchStep cfg e).1.jobs fid = some j
    ∧ (∀ w ∈ (orchStep cfg e).1.workers, w.fid ≠ fid)
    ∧ (∀ t ∈ (orchStep cfg e).1.timers, t.1 ≠ fid) := by
  cases e with
  | reqDownload f env =>
    by_cases hfe : f.isEmpty
    · simp only [orchStep, hfe, if_true]
      exact ⟨hj, hw, ht⟩
    · have hfe' : f.isEmpty = false := by simpa using hfe
      simp only [orchStep, hfe', Bool.false_eq_true, if_false]
      cases hlf : lookupJ cfg.jobs f with
      | some j' => exact ⟨hj, hw, ht⟩
      | none =>
        refine ⟨hj, ?_, ht⟩
        intro w hwmem
        rcases List.mem_append.mp hwmem with h1 | h1
        · exact hw w h1
        · have hwe : w = ⟨f, env, 0⟩ := by simpa using h1
          subst hwe
          show f ≠ fid
          intro hfid
          rw [hfid, hj] at hlf
          exact Option.noConfusion hlf
  | workStep i =>
    cases hgi : cfg.workers.get? i with
    | none => simp only [orchStep, hgi]; exact ⟨hj, hw, ht⟩
    | some w =>
      have hwf : w.fid ≠ fid := hw w (List.get?_mem hgi)
      have hfw : fid ≠ w.fid := fun hk => hwf hk.symm
      simp only [orchStep, hgi]
      by_cases hpc0 : w.pc = 0
      · rw [stepWorker_pc0 cfg i w hpc0]
        refine ⟨?_, ?_, ht⟩
        · rw [lookupJ_insert_ne _ _ _ _ hfw]; exact hj
        · intro w' hmem
          rcases List.mem_or_eq_of_mem_set hmem with h1 | h1
          · exact hw w' h1
          · subst h1; exact hwf
      · by_cases hpc1 : w.pc = 1
        · cases hres : initiate_download cfg.api w.env.dlInput with
          | error e' =>
            rw [stepWorker_pc1_err cfg i w e' hpc0 hpc1 hres]
            refine ⟨?_, ?_, ht⟩
            · rw [lookupJ_insert_ne _ _ _ _ hfw]; exact hj
            · intro w' hmem; exact hw w' (List.eraseIdx_subset _ _ hmem)
          | ok info =>
            rw [stepWorker_pc1_ok cfg i w info hpc0 hpc1 hres]
            refine ⟨hj, ?_, ht⟩
            intro w' hmem
            rcases List.mem_or_eq_of_mem_set hmem with h1 | h1
            · exact hw w' h1
            · subst h1; exact hwf
        · cases hres : initiate_download cfg.api w.env.dlInput with
          | error e' =>
            rw [stepWorker_pc2_err cfg i w e' hpc0 hpc1 hres]
            refine ⟨hj, ?_, ht⟩
            intro w' hmem; exact hw w' (List.eraseIdx_subset _ _ hmem)
          | ok info =>
            rw [stepWorker_pc2_ok cfg i w info hpc0 hpc1 hres]
            refine ⟨?_, ?_, ?_⟩
            · rw [lookupJ_insert_ne _ _ _ _ hfw]; exact hj
            · intro w' hmem; exact hw w' (List.eraseIdx_subset _ _ hmem)
            · intro t htm
              revert htm
              show t ∈ (if _ then _ else _) → _
              split
              · intro htm
                rcases List.mem_append.mp htm with h1 | h1
                · exact ht t h1
                · have hte : t = (w.fid, cfg.now + 30) := by simpa using h1
                  subst hte
                  exact hwf
              · intro htm; exact ht t htm
  | tick =>
    simp only [orchStep]
    refine ⟨?_, hw, ?_⟩
    · rw [lookupJ_foldl_erase _ _ _ (fun t ht' => ht t (List.mem_of_mem_filter ht'))]
      exact hj
    · intro t htm; exact ht t (List.mem_of_mem_filter htm)

theorem errorPersists_run (evs : List Ev) :
    ∀ cfg : Orch, ∀ fid : String, ∀ j : Job,
      lookupJ cfg.jobs fid = some j →
      (∀ w ∈ cfg.workers, w.fid ≠ fid) →
      (∀ t ∈ cfg.timers, t.1 ≠ fid) →
      lookupJ (orchRun cfg evs).jobs fid = some j := by
  induction evs with
  | nil => intro cfg fid j hj _ _; exact hj
  | cons e rest ih =>
    intro cfg fid j hj hw ht
    obtain ⟨h1, h2, h3⟩ := errorPersists_step cfg e fid j hj hw ht
    exact ih (orchStep cfg e).1 fid j h1 h2 h3

/-- Invariant while a cleanup timer for `fid` is pending. -/
def reapInvA (cfg : Orch) (fid : String) (T : Nat) : Prop :=
  (fid, T) ∈ cfg.timers ∧ (∀ t ∈ cfg.timers, t.1 = fid → t.2 = T)
  ∧ (∀ w ∈ cfg.workers, w.fid ≠ fid) ∧ cfg.now < T ∧ keyCount cfg.jobs fid ≤ 1

/-- Invariant once the timer has fired and the record is gone. -/
def reapInvB (cfg : Orch) (fid : String) : Prop :=
  lookupJ cfg.jobs fid = none ∧ (∀ t ∈ cfg.timers, t.1 ≠ fid)
  ∧ (∀ w ∈ cfg.workers, w.fid ≠ fid)

theorem reap_step (cfg : Orch) (e : Ev) (fid : String) (T : Nat)
    (hreq : isReqFor fid e = false)
    (h : reapInvA cfg fid T ∨ reapInvB cfg fid) :
    reapInvA (orchStep cfg e).1 fid T ∨ reapInvB (orchStep cfg e).1 fid := by
  cases e with
  | reqDownload f env =>
    have hffid : f ≠ fid := by
      simpa [isReqFor] using hreq
    by_cases hfe : f.isEmpty
    · simpa only [orchStep, hfe, if_true] using h
    · have hfe' : f.isEmpty = false := by simpa using hfe
      simp only [orchStep, hfe', Bool.false_eq_true, if_false]
      cases hlf : lookupJ cfg.jobs f with
      | some j' => exact h
      | none =>
        rcases h with hA | hB
        · left
          obtain ⟨a1, a2, a3, a4, a5⟩ := hA
          refine ⟨a1, a2, ?_, a4, a5⟩
          intro w hwmem
          rcases List.mem_append.mp hwmem with h1 | h1
          · exact a3 w h1
          · have hwe : w = ⟨f, env, 0⟩ := by simpa using h1
            subst hwe; exact hffid
        · right
          obtain ⟨b1, b2, b3⟩ := hB
          refine ⟨b1, b2, ?_⟩
          intro w hwmem
          rcases List.mem_append.mp hwmem with h1 | h1
          · exact b3 w h1
          · have hwe : w = ⟨f, env, 0⟩ := by simpa using h1
            subst hwe; exact hffid
  | workStep i =>
    cases hgi : cfg.workers.get? i with
    | none => simpa only [orchStep, hgi] using h
    | some w =>
      have hwmem := List.get?_mem hgi
      simp only [orchStep, hgi]
      rcases h with hA | hB
      · obtain ⟨a1, a2, a3, a4, a5⟩ := hA
        have hwf : w.fid ≠ fid := a3 w hwmem
        have hfw : fid ≠ w.fid := fun hk => hwf hk.symm
        left
        by_cases hpc0 : w.pc = 0
        · rw [stepWorker_pc0 cfg i w hpc0]
          refine ⟨a1, a2, ?_, a4, ?_⟩
          · intro w' hmem
            rcases List.mem_or_eq_of_mem_set hmem with h1 | h1
            · exact a3 w' h1
            · subst h1; exact hwf
          · rw [keyCount_insert_ne _ _ _ _ hwf]; exact a5
        · by_cases hpc1 : w.pc = 1
          · cases hres : initiate_download cfg.api w.env.dlInput with
            | error e' =>
              rw [stepWorker_pc1_err cfg i w e' hpc0 hpc1 hres]
              refine ⟨a1, a2, ?_, a4, ?_⟩
              · intro w' hmem; exact a3 w' (List.eraseIdx_subset _ _ hmem)
              · rw [keyCount_insert_ne _ _ _ _ hwf]; exact a5
            | ok info =>
              rw [stepWorker_pc1_ok cfg i w info hpc0 hpc1 hres]
              refine ⟨a1, a2, ?_, a4, a5⟩
              intro w' hmem
              rcases List.mem_or_eq_of_mem_set hmem with h1 | h1
              · exact a3 w' h1
              · subst h1; exact hwf
          · cases hres : initiate_download cfg.api w.env.dlInput with
            | error e' =>
              rw [stepWorker_pc2_err cfg i w e' hpc0 hpc1 hres]
              refine ⟨a1, a2, ?_, a4, a5⟩
              intro w' hmem; exact a3 w' (List.eraseIdx_subset _ _ hmem)
            | ok info =>
              rw [stepWorker_pc2_ok cfg i w info hpc0 hpc1 hres]
              refine ⟨?_, ?_, ?_, a4, ?_⟩
              · show (fid, T) ∈ (if _ then _ else _)
                split
                · exact List.mem_append.mpr (Or.inl a1)
                · exact a1
              · intro t htm
                revert htm
                show t ∈ (if _ then _ else _) → _
                split
                · intro htm
                  rcases List.mem_append.mp htm with h1 | h1
                  · exact a2 t h1
                  · have hte : t = (w.fid, cfg.now + 30) := by simpa using h1
                    subst hte
                    intro hct
                    exact absurd hct hwf
                · intro htm; exact a2 t htm
              · intro w' hmem; exact a3 w' (List.eraseIdx_subset _ _ hmem)
              · rw [keyCount_insert_ne _ _ _ _ hwf]; exact a5
      · obtain ⟨b1, b2, b3⟩ := hB
        have hwf : w.fid ≠ fid := b3 w hwmem
        have hfw : fid ≠ w.fid := fun hk => hwf hk.symm
        right
        by_cases hpc0 : w.pc = 0
        · rw [stepWorker_pc0 cfg i w hpc0]
          refine ⟨?_, b2, ?_⟩
          · rw [lookupJ_insert_ne _ _ _ _ hfw]; exact b1
          · intro w' hmem
            rcases List.mem_or_eq_of_mem_set hmem with h1 | h1
            · exact b3 w' h1
            · subst h1; exact hwf
        · by_cases hpc1 : w.pc = 1
          · cases hres : initiate_download cfg.api w.env.dlInput with
            | error e' =>
              rw [stepWorker_pc1_err cfg i w e' hpc0 hpc1 hres]
              refine ⟨?_, b2, ?_⟩
              · rw [lookupJ_insert_ne _ _ _ _ hfw]; exact b1
              · intro w' hmem; exact b3 w' (List.eraseIdx_subset _ _ hmem)
            | ok info =>
              rw [stepWorker_pc1_ok cfg i w info hpc0 hpc1 hres]
              refine ⟨b1, b2, ?_⟩
              intro w' hmem
              rcases List.mem_or_eq_of_mem_set hmem with h1 | h1
              · exact b3 w' h1
              · subst h1; exact hwf
          · cases hres : initiate_download cfg.api w.env.dlInput with
            | error e' =>
              rw [stepWorker_pc2_err cfg i w e' hpc0 hpc1 hres]
              refine ⟨b1, b2, ?_⟩
              intro w' hmem; exact b3 w' (List.eraseIdx_subset _ _ hmem)
            | ok info =>
              rw [stepWorker_pc2_ok cfg i w info hpc0 hpc1 hres]
              refine ⟨?_, ?_, ?_⟩
              · rw [lookupJ_insert_ne _ _ _ _ hfw]; exact b1
              · intro t htm
                revert htm
                show t ∈ (if _ then _ else _) → _
                split
                · intro htm
                  rcases List.mem_append.mp htm with h1 | h1
                  · exact b2 t h1
                  · have hte : t = (w.fid, cfg.now + 30) := by simpa using h1
                    subst hte
                    exact hwf
                · intro htm; exact b2 t htm
              · intro w' hmem; exact b3 w' (List.eraseIdx_subset _ _ hmem)
  | tick =>
    rcases h with hA | hB
    · obtain ⟨a1, a2, a3, a4, a5⟩ := hA
      simp only [orchStep]
      by_cases hT : T ≤ cfg.now + 1
      · right
        refine ⟨?_, ?_, a3⟩
        · apply lookupJ_none_of_keyCount_zero
          apply keyCount_foldl_erase_zero _ _ _ _ a5
          exact ⟨(fid, T), List.mem_filter.mpr ⟨a1, by simpa using hT⟩, rfl⟩
        · intro t htm hct
          have h1 := List.mem_of_mem_filter htm
          have h2 := List.of_mem_filter htm
          have h3 := a2 t h1 hct
          rw [h3] at h2
          simp [hT] at h2
      · left
        refine ⟨?_, ?_, a3, ?_, ?_⟩
        · exact List.mem_filter.mpr ⟨a1, by simpa using hT⟩
        · intro t htm; exact a2 t (List.mem_of_mem_filter htm)
        · show cfg.now + 1 < T
          omega
        · calc keyCount _ fid ≤ keyCount cfg.jobs fid := keyCount_foldl_erase_le _ _ _
          _ ≤ 1 := a5
    · obtain ⟨b1, b2, b3⟩ := hB
      right
      simp only [orchStep]
      refine ⟨?_, ?_, b3⟩
      · rw [lookupJ_foldl_erase _ _ _ (fun t ht' => b2 t (List.mem_of_mem_filter ht'))]
        exact b1
      · intro t htm; exact b2 t (List.mem_of_mem_filter htm)

theorem reap_run (evs : List Ev) :
    ∀ cfg : Orch, ∀ fid : String, ∀ T : Nat,
      (∀ e ∈ evs, isReqFor fid e = false) →
      (reapInvA cfg fid T ∨ reapInvB cfg fid) →
      reapInvA (orchRun cfg evs) fid T ∨ reapInvB (orchRun cfg evs) fid := by
  induction evs with
  | nil => intro cfg fid T _ h; exact h
  | cons e rest ih =>
    intro cfg fid T h hinv
    exact ih (orchStep cfg e).1 fid T (fun e' he' => h e' (by simp [he']))
      (reap_step cfg e fid T (h e (by simp)) hinv)

/-- A convenient authenticated baseline configuration. -/
def cfg0 : Orch :=
  { api := ⟨true, some "tok"⟩, jobs := [], workers := [], timers := [],
    now := 0, resolveCalls := 0, downloadPath := "/downloads" }

/-- A worker environment whose remote interactions all succeed (an empty chunk
stream keeps concrete evaluations cheap; chunked runs are exercised by the C5/C6
theorems). -/
def envOk : WEnv :=
  { fileName := some "f.bin",
    dlInput := .resp ⟨[("status", some "OK"), ("link", some "http u"),
      ("name", some "f.bin"), ("size", some "100")]⟩,
    contentLength := some 100, chunks := [], fate := .success }

/-- A completed job record, as left by a successful worker. -/
def doneJob : Job :=
  { initialJob (some "f.bin") 0 with status := "completed", progress := 100 }

/-- C2 (amended): when a job record already exists for `fileId` (any status), the
`download` route returns immediately referencing that job's status and progress
and changes nothing — no job registered, no worker spawned, no
`initiate_download` call made. -/
theorem download_existing_job_short_circuits
    (cfg : Orch) (fid : String) (env : WEnv) (j : Job)
    (hfid : fid.isEmpty = false) (h : lookupJ cfg.jobs fid = some j) :
    orchStep cfg (.reqDownload fid env) = (cfg, some (.alreadyInProgress j.status j.progress)) := by
  simp only [orchStep, hfid, Bool.false_eq_true, if_false, h]

/-- Witness for `download_existing_job_short_circuits`. -/
theorem download_existing_job_short_circuits_witness :
    orchStep { cfg0 with jobs := [("abc", initialJob (some "f.bin") 0)] }
        (.reqDownload "abc" envOk)
      = ({ cfg0 with jobs := [("abc", initialJob (some "f.bin") 0)] },
         some (.alreadyInProgress (initialJob (some "f.bin") 0).status
           (initialJob (some "f.bin") 0).progress)) :=
  download_existing_job_short_circuits _ "abc" envOk _ (by decide) (by decide)

/-- C2 counterexample: the job record is created by the worker thread, not by the
route handler, so two `download` requests for the same `fileId` that both run
before either spawned thread has executed its first statement both pass the
`file_id in active_downloads` check; each worker then calls `initiate_download`,
so `resolveDownloadLink` is invoked twice — not "exactly once". -/
theorem download_double_start_two_resolves :
    (orchRun cfg0 [.reqDownload "abc" envOk, .reqDownload "abc" envOk,
        .workStep 0, .workStep 1, .workStep 0, .workStep 1]).resolveCalls = 2 := by
  decide

/-- C3: the existence check (route handler, line 199) and the creation of the job
record (worker thread, line 101) are not one atomic step: after two back-to-back
requests for the same id, two workers have been spawned while the job map is
still empty — both calls passed the check, neither has created the record. -/
theorem download_check_then_create_not_atomic :
    (orchRun cfg0 [.reqDownload "abc" envOk, .reqDownload "abc" envOk]).workers.length = 2
    ∧ (orchRun cfg0 [.reqDownload "abc" envOk, .reqDownload "abc" envOk]).jobs = []
    ∧ (orchStep cfg0 (.reqDownload "abc" envOk)).2 = some (.started "abc")
    ∧ (orchStep (orchStep cfg0 (.reqDownload "abc" envOk)).1
        (.reqDownload "abc" envOk)).2 = some (.started "abc") := by
  refine ⟨?_, ?_, ?_, ?_⟩ <;> decide

/-- C10 (confirmed): the `download` route consults no authentication state: with
an unauthenticated session and no existing job it still answers success and the
spawned worker registers the job; the failure only surfaces afterwards, when the
worker's `initiate_download` call raises the not-logged-in error and the job is
replaced by an `error` record carrying that message. -/
theorem download_no_auth_required (cfg : Orch) (fid : String) (env : WEnv)
    (hauth : cfg.api.authOK = false) (hfid : fid.isEmpty = false)
    (hjob : lookupJ cfg.jobs fid = none) (hw : cfg.workers = []) :
    (orchStep cfg (.reqDownload fid env)).2 = some (.started fid)
    ∧ lookupJ (orchRun cfg [.reqDownload fid env, .workStep 0]).jobs fid
        = some (initialJob env.fileName cfg.now)
    ∧ lookupJ (orchRun cfg [.reqDownload fid env, .workStep 0, .workStep 0]).jobs fid
        = some (errJob env.fileName notAuthMsgDownload) := by
  have hresolve : initiate_download cfg.api env.dlInput = .error notAuthMsgDownload := by
    unfold initiate_download
    rw [hauth]
    rfl
  have h1 : orchStep cfg (.reqDownload fid env)
      = ({ cfg with workers := [⟨fid, env, 0⟩] }, some (.started fid)) := by
    simp only [orchStep, hfid, Bool.false_eq_true, if_false, hjob, hw, List.nil_append]
  have h2 : orchStep { cfg with workers := [⟨fid, env, 0⟩] } (.workStep 0)
      = ({ cfg with
            workers := [⟨fid, env, 1⟩]
            jobs := insertJ cfg.jobs fid (initialJob env.fileName cfg.now) }, none) := by
    simp only [orchStep, List.get?, stepWorker, if_pos rfl]
    rfl
  have h3 : orchStep { cfg with
        workers := [⟨fid, env, 1⟩]
        jobs := insertJ cfg.jobs fid (initialJob env.fileName cfg.now) } (.workStep 0)
      = ({ cfg with
            workers := []
            jobs := insertJ (insertJ cfg.jobs fid (initialJob env.fileName cfg.now)) fid
              (errJob env.fileName notAuthMsgDownload)
            resolveCalls := cfg.resolveCalls + 1 }, none) := by
    simp only [orchStep, List.get?, stepWorker, if_true]
    rw [hresolve]
    rfl
  refine ⟨?_, ?_, ?_⟩
  · rw [h1]
  · show lookupJ ((orchStep (orchStep cfg (.reqDownload fid env)).1 (.workStep 0)).1).jobs fid = _
    rw [h1, h2]
    exact lookupJ_insert_self _ _ _
  · show lookupJ ((orchStep (orchStep (orchStep cfg
      (.reqDownload fid env)).1 (.workStep 0)).1 (.workStep 0)).1).jobs fid = _
    rw [h1, h2, h3]
    exact lookupJ_insert_self _ _ _

/-- C7 (confirmed): (1) a worker whose download completes schedules the removal of
its record 30 seconds after completion (and installs the completed record); (2)
once a cleanup timer for `fid` is pending (uniquely, with no worker for `fid`
alive), any event sequence whose requests avoid `fid` and that reaches the
timer's deadline leaves a status query answering NotFound; (3) a job record in
state `error` with no worker and no timer for its id is never removed: every
status query, after any events whatsoever, still returns it. -/
theorem cleanup_completed_and_error_jobs :
    (∀ (cfg : Orch) (i : Nat) (w : Worker) (info : DlResult),
       cfg.workers.get? i = some w → w.pc = 2 →
       initiate_download cfg.api w.env.dlInput = .ok info →
       (workerFinal w.env.fileName info w.env.contentLength w.env.chunks w.env.fate
          cfg.downloadPath cfg.now).status = "completed" →
       (stepWorker cfg i w).timers = cfg.timers ++ [(w.fid, cfg.now + 30)]
       ∧ lookupJ (stepWorker cfg i w).jobs w.fid
           = some (workerFinal w.env.fileName info w.env.contentLength w.env.chunks
               w.env.fate cfg.downloadPath cfg.now))
    ∧ (∀ (cfg : Orch) (fid : String) (T : Nat) (evs : List Ev),
        (fid, T) ∈ cfg.timers → (∀ t ∈ cfg.timers, t.1 = fid → t.2 = T) →
        (∀ w ∈ cfg.workers, w.fid ≠ fid) → cfg.now < T → keyCount cfg.jobs fid ≤ 1 →
        (∀ e ∈ evs, isReqFor fid e = false) →
        T ≤ (orchRun cfg evs).now →
        download_progress (orchRun cfg evs) fid = none)
    ∧ (∀ (cfg : Orch) (fid : String) (j : Job) (evs : List Ev),
        lookupJ cfg.jobs fid = some j → j.status = "error" →
        (∀ w ∈ cfg.workers, w.fid ≠ fid) → (∀ t ∈ cfg.timers, t.1 ≠ fid) →
        download_progress (orchRun cfg evs) fid = some j) := by
  refine ⟨?_, ?_, ?_⟩
  · intro cfg i w info hgi hpc hres hstat
    have h0 : ¬ w.pc = 0 := by omega
    have h1 : ¬ w.pc = 1 := by omega
    rw [stepWorker_pc2_ok cfg i w info h0 h1 hres]
    constructor
    · show (if _ then _ else _) = _
      rw [hstat]
      rfl
    · exact lookupJ_insert_self _ _ _
  · intro cfg fid T evs h1 h2 h3 h4 h5 h6 h7
    rcases reap_run evs cfg fid T h6 (Or.inl ⟨h1, h2, h3, h4, h5⟩) with hA | hB
    · exact absurd h7 (by have := hA.2.2.2.1; omega)
    · exact hB.1
  · intro cfg fid j evs hj _ hw ht
    exact errorPersists_run evs cfg fid j hj hw ht

/-- Witness for `cleanup_completed_and_error_jobs`. -/
theorem cleanup_completed_and_error_jobs_witness :
    ((stepWorker { cfg0 with workers := [⟨"f", envOk, 2⟩] } 0 ⟨"f", envOk, 2⟩).timers
        = ({ cfg0 with workers := [⟨"f", envOk, 2⟩] } : Orch).timers
          ++ [("f", ({ cfg0 with workers := [⟨"f", envOk, 2⟩] } : Orch).now + 30)]
      ∧ lookupJ (stepWorker { cfg0 with workers := [⟨"f", envOk, 2⟩] } 0 ⟨"f", envOk, 2⟩).jobs "f"
          = some (workerFinal envOk.fileName ⟨some "http u", some "f.bin", 100⟩
              envOk.contentLength envOk.chunks envOk.fate
              ({ cfg0 with workers := [⟨"f", envOk, 2⟩] } : Orch).downloadPath
              ({ cfg0 with workers := [⟨"f", envOk, 2⟩] } : Orch).now))
    ∧ download_progress (orchRun { cfg0 with
          jobs := [("f", doneJob)]
          timers := [("f", 30)] } (List.replicate 30 Ev.tick)) "f" = none
    ∧ download_progress (orchRun { cfg0 with
          jobs := [("f", errJob (some "f.bin") "boom")] }
          [Ev.tick, Ev.reqDownload "f" envOk, Ev.workStep 0]) "f"
        = some (errJob (some "f.bin") "boom") :=
  ⟨cleanup_completed_and_error_jobs.1 _ 0 ⟨"f", envOk, 2⟩ ⟨some "http u", some "f.bin", 100⟩
      rfl rfl rfl (by decide),
   cleanup_completed_and_error_jobs.2.1 _ "f" 30 (List.replicate 30 Ev.tick)
      (by decide) (by decide) (by decide) (by decide) (by decide) (by decide) (by decide),
   cleanup_completed_and_error_jobs.2.2 _ "f" (errJob (some "f.bin") "boom")
      [Ev.tick, Ev.reqDownload "f" envOk, Ev.workStep 0]
      (by decide) rfl (by decide) (by decide)⟩

/-- Witness for `download_no_auth_required`. -/
theorem download_no_auth_required_witness :
    (orchStep { cfg0 with api := initApi } (.reqDownload "abc" envOk)).2
        = some (.started "abc")
    ∧ lookupJ (orchRun { cfg0 with api := initApi }
        [.reqDownload "abc" envOk, .workStep 0]).jobs "abc"
        = some (initialJob envOk.fileName ({ cfg0 with api := initApi } : Orch).now)
    ∧ lookupJ (orchRun { cfg0 with api := initApi }
        [.reqDownload "abc" envOk, .workStep 0, .workStep 0]).jobs "abc"
        = some (errJob envOk.fileName notAuthMsgDownload) :=
  download_no_auth_required { cfg0 with api := initApi } "abc" envOk
    (by decide) (by decide) (by decide) (by decide)

set_option maxRecDepth 8000 in
/-- C5 counterexample: with `totalBytes = 100000000000043` and
`downloadedBytes = 83750000000036` the code's float expression
`int((downloaded_size / total_size) * 80)` evaluates to 67 (the double rounding
lands exactly on 67), so the job records progress 77, while the claim's exact
`min(90, 10 + floor(80*d/t))` is 76. -/
theorem progress_float_differs_from_floor :
    (download_file_background (some "f.bin") (.ok ⟨some "u", some "f.bin", 0⟩)
        (some 100000000000043) [83750000000036] .success "/downloads" 0).2.map
        (fun j => (j.progress, j.downloadedSize))
      = [(77, some 83750000000036)]
    ∧ specProgress 83750000000036 100000000000043 = 76
    ∧ (77 : Nat) ≠ 76 := by
  refine ⟨?_, rfl, by decide⟩
  with_unfolding_all rfl

/-- C5 (amended): while `totalBytes > 0`, the record left at the end of each
nonempty-chunk iteration carries progress
`min(90, 10 + int(fl64(fl64(downloadedBytes / totalBytes) * 80)))` — the Python
binary64 evaluation (`pyProgress`), which can differ from the exact
`floor(80*d/t)` of the claim in borderline rounding cases. -/
theorem per_chunk_progress_matches_python
    (file_name : Option String) (info : DlResult) (contentLength : Option Nat)
    (chunks : List Nat) (fate : WorkerFate) (download_path : String) (t0 : Nat)
    (hname : effName file_name info ≠ none)
    (hfate : fate = WorkerFate.success ∨ ∃ m, fate = WorkerFate.streamFail m)
    (htotal : 0 < contentLength.getD info.fileSize) :
    (download_file_background file_name (.ok info) contentLength chunks fate
        download_path t0).2.map (fun j => (j.progress, j.downloadedSize))
      = (nzSums 0 chunks).map
          (fun s => (pyProgress s (contentLength.getD info.fileSize), some s)) := by
  obtain ⟨nm, hnm⟩ : ∃ nm, effName file_name info = some nm := by
    cases h : effName file_name info with
    | none => exact absurd h hname
    | some nm => exact ⟨nm, rfl⟩
  simp only [download_file_background, workerBody]
  rw [hnm]
  rcases hfate with hf | ⟨m, hf⟩ <;> subst hf <;>
    exact streamTrace_postChunk _ htotal chunks 0 _

/-- Witness for `per_chunk_progress_matches_python`. -/
theorem per_chunk_progress_matches_python_witness :
    (download_file_background (some "f.bin") (.ok ⟨some "u", some "f.bin", 100⟩)
        (some 100) [50, 50] .success "/downloads" 0).2.map
        (fun j => (j.progress, j.downloadedSize))
      = (nzSums 0 [50, 50]).map
          (fun s => (pyProgress s ((some 100 : Option Nat).getD
            (DlResult.fileSize ⟨some "u", some "f.bin", 100⟩)), some s)) :=
  per_chunk_progress_matches_python (some "f.bin") ⟨some "u", some "f.bin", 100⟩
    (some 100) [50, 50] .success "/downloads" 0 (by decide) (Or.inl rfl) (by decide)

set_option maxRecDepth 8000 in
/-- C6 counterexample: a stream failure after the first chunk replaces the record
with an `error` record whose progress is 0, so the update sequence
`0,0,5,5,10,10,50,50,50` drops to `0`: progress is not monotonically
non-decreasing over every update sequence. -/
theorem error_reset_breaks_monotonicity :
    ((download_file_background (some "f.bin") (.ok ⟨some "u", some "f.bin", 100⟩)
        (some 100) [50] (.streamFail "Connection broken") "/downloads" 0).1.map Job.progress)
      = [0, 0, 5, 5, 10, 10, 50, 50, 50, 0]
    ∧ ¬ List.Chain' (· ≤ ·) [0, 0, 5, 5, 10, 10, 50, 50, 50, 0] := by
  constructor
  · with_unfolding_all rfl
  · simp [List.chain'_cons]

/-- C6 (amended): on an error-free run (resolve succeeds, a usable file name
exists, the stream completes), the job record's progress is monotonically
non-decreasing over the whole update sequence, never exceeds 90 in any state
that is not `completed`, and the final state is `completed` with progress 100.
(A failing run instead replaces the record with an `error` record of progress 0,
which is the counterexample to monotonicity as originally claimed.) -/
theorem progress_monotone_error_free
    (file_name : Option String) (info : DlResult) (contentLength : Option Nat)
    (chunks : List Nat) (download_path : String) (t0 : Nat)
    (hname : effName file_name info ≠ none) :
    List.Chain' (· ≤ ·) ((download_file_background file_name (.ok info) contentLength
        chunks .success download_path t0).1.map Job.progress)
    ∧ (∀ j ∈ (download_file_background file_name (.ok info) contentLength
        chunks .success download_path t0).1, j.status ≠ "completed" → j.progress ≤ 90)
    ∧ (∃ jl, (download_file_background file_name (.ok info) contentLength
          chunks .success download_path t0).1.getLast? = some jl
        ∧ jl.status = "completed" ∧ jl.progress = 100) := by
  obtain ⟨nm, hnm⟩ : ∃ nm, effName file_name info = some nm := by
    cases h : effName file_name info with
    | none => exact absurd h hname
    | some nm => exact ⟨nm, rfl⟩
  simp only [download_file_background, workerBody]
  rw [hnm]
  obtain ⟨ch, hfin, hd0, hall, hlast⟩ :=
    streamTrace_props (contentLength.getD info.fileSize) chunks 0
      (jobV5 file_name t0 (contentLength.getD info.fileSize))
      (by rw [pyProgress_zero]; exact Nat.le_refl 10)
  set T := contentLength.getD info.fileSize with hT
  set r := streamTrace T 0 (jobV5 file_name t0 T) chunks with hr
  have hcurLe : r.2.1.progress ≤ 90 := le_trans hfin (pyProgress_bounds _ _).2
  have hsplit : (initialJob file_name t0 ::
      ([jobV1 file_name t0, jobV2 file_name t0, jobV3 file_name t0, jobV4 file_name t0,
          jobV5 file_name t0 T]
        ++ r.2.2.1
        ++ [jobC1 r.2.1, jobC2 r.2.1, jobC3 r.2.1, jobC4 r.2.1 download_path nm,
            jobC5 r.2.1 download_path nm r.1]))
      = ([initialJob file_name t0, jobV1 file_name t0, jobV2 file_name t0,
            jobV3 file_name t0, jobV4 file_name t0]
          ++ (jobV5 file_name t0 T :: r.2.2.1))
        ++ [jobC1 r.2.1, jobC2 r.2.1, jobC3 r.2.1, jobC4 r.2.1 download_path nm,
            jobC5 r.2.1 download_path nm r.1] := by
    simp
  refine ⟨?_, ?_, ?_⟩
  · rw [hsplit, List.map_append, List.map_append]
    apply List.Chain'.append
    · apply List.Chain'.append
      · simp only [List.map_cons, List.map_nil, List.chain'_cons, List.chain'_singleton]
        simp [initialJob, jobV1, jobV2, jobV3, jobV4]
      · exact ch
      · intro x hx y hy
        simp only [List.map_cons, List.map_nil, List.getLast?_cons_cons,
          List.getLast?_singleton, Option.mem_def, Option.some_inj] at hx
        simp only [List.map_cons, List.head?_cons, Option.mem_def, Option.some_inj] at hy
        subst hx
        subst hy
        show (jobV4 file_name t0).progress ≤ (jobV5 file_name t0 T).progress
        exact Nat.le_refl 10
    · simp only [List.map_cons, List.map_nil, List.chain'_cons, List.chain'_singleton]
      refine ⟨?_, ?_, ?_, ?_, trivial⟩
      · show r.2.1.progress ≤ (jobC2 r.2.1).progress
        show r.2.1.progress ≤ 100
        omega
      · exact Nat.le_refl 100
      · exact Nat.le_refl 100
      · exact Nat.le_refl 100
    · intro x hx y hy
      rw [List.getLast?_append_of_ne_nil _ (by simp)] at hx
      rw [List.getLast?_map] at hx
      rw [hlast] at hx
      simp only [Option.map_some', Option.mem_def, Option.some_inj] at hx
      simp only [List.map_cons, List.head?_cons, Option.mem_def, Option.some_inj] at hy
      subst hx
      subst hy
      show r.2.1.progress ≤ (jobC1 r.2.1).progress
      exact Nat.le_refl _
  · intro j hj hne
    simp only [List.mem_cons, List.mem_append, List.not_mem_nil, or_false] at hj
    rcases hj with rfl | ⟨(rfl | rfl | rfl | rfl | rfl) | hj⟩ | (rfl | rfl | rfl | rfl | rfl)
    · simp [initialJob]
    · simp [jobV1, initialJob]
    · simp [jobV2, jobV1, initialJob]
    · simp [jobV3, jobV2, jobV1, initialJob]
    · simp [jobV4, jobV3, jobV2, jobV1, initialJob]
    · simp [jobV5, jobV4, jobV3, jobV2, jobV1, initialJob]
    · exact (hall j hj).1
    · exact absurd rfl hne
    · exact absurd rfl hne
    · exact absurd rfl hne
    · exact absurd rfl hne
    · exact absurd rfl hne
  · refine ⟨jobC5 r.2.1 download_path nm r.1, ?_, rfl, rfl⟩
    have hconcat : (initialJob file_name t0 ::
        ([jobV1 file_name t0, jobV2 file_name t0, jobV3 file_name t0, jobV4 file_name t0,
            jobV5 file_name t0 T]
          ++ r.2.2.1
          ++ [jobC1 r.2.1, jobC2 r.2.1, jobC3 r.2.1, jobC4 r.2.1 download_path nm,
              jobC5 r.2.1 download_path nm r.1]))
        = (initialJob file_name t0 ::
            ([jobV1 file_name t0, jobV2 file_name t0, jobV3 file_name t0, jobV4 file_name t0,
                jobV5 file_name t0 T]
              ++ r.2.2.1
              ++ [jobC1 r.2.1, jobC2 r.2.1, jobC3 r.2.1, jobC4 r.2.1 download_path nm]))
          ++ [jobC5 r.2.1 download_path nm r.1] := by
      simp
    rw [hconcat, List.getLast?_append_of_ne_nil _ (by simp)]
    rfl

/-- Witness for `progress_monotone_error_free`. -/
theorem progress_monotone_error_free_witness :
    List.Chain' (· ≤ ·) ((download_file_background (some "f.bin")
        (.ok ⟨some "u", some "f.bin", 100⟩) (some 100) [50, 50] .success "/downloads" 0).1.map
        Job.progress)
    ∧ (∀ j ∈ (download_file_background (some "f.bin")
        (.ok ⟨some "u", some "f.bin", 100⟩) (some 100) [50, 50] .success "/downloads" 0).1,
        j.status ≠ "completed" → j.progress ≤ 90)
    ∧ (∃ jl, (download_file_background (some "f.bin")
          (.ok ⟨some "u", some "f.bin", 100⟩) (some 100) [50, 50]
            .success "/downloads" 0).1.getLast? = some jl
        ∧ jl.status = "completed" ∧ jl.progress = 100) :=
  progress_monotone_error_free (some "f.bin") ⟨some "u", some "f.bin", 100⟩ (some 100)
    [50, 50] "/downloads" 0 (by decide)

/-- Witness for `initiate_download_ok_total`. -/
theorem initiate_download_ok_total_witness :
    ∃ r : DlResult,
      initiate_download ⟨true, some "tok"⟩ (.resp ⟨[("status", some "OK")]⟩) = .ok r
      ∧ ((⟨[("status", some "OK")]⟩ : XmlDoc).find "link" = none → r.downloadUrl = some "")
      ∧ ((⟨[("status", some "OK")]⟩ : XmlDoc).find "name" = none → r.fileName = some "download")
      ∧ (∀ s : String, (⟨[("status", some "OK")]⟩ : XmlDoc).find "size" = some (some s) →
          ((!s.data.isEmpty && s.data.all (fun c => c.isDigit)) = true →
            r.fileSize = digitsToNat s.data)
          ∧ ((!s.data.isEmpty && s.data.all (fun c => c.isDigit)) = false → r.fileSize = 0))
      ∧ ((⟨[("status", some "OK")]⟩ : XmlDoc).find "size" = some none → r.fileSize = 0)
      ∧ ((⟨[("status", some "OK")]⟩ : XmlDoc).find "size" = none → r.fileSize = 0) :=
  initiate_download_ok_total ⟨true, some "tok"⟩ ⟨[("status", some "OK")]⟩ (by decide) (by decide)

end Webshare
